import Mathlib

/-!
Verification development for the littleutils repository (`utils.py`).

The two components under specification are the table formatter
`pretty_table` together with its dictionary-error helpers, and the tolerant
JSON encoder `DecentJSONEncoder`.  Python strings are embedded as `List Char`,
Python exceptions as `Except` errors, and the mutable closure state of
`pretty_table` (`rows2`, `header`, `row_type`) as an explicit state record
threaded through a fold.
-/

/-- A Python string, embedded as its list of characters. -/
abbrev PyStr := List Char

/-- The whitespace characters recognised by Python's `str.strip()`
(space, tab, newline, carriage return, vertical tab, form feed). -/
def pyIsSpace (c : Char) : Bool :=
  c = ' ' || c = '\t' || c = '\n' || c = '\r' || c = Char.ofNat 11 || c = Char.ofNat 12

/-- Python `str.strip()`: remove leading and trailing whitespace. -/
def pyStrip (l : PyStr) : PyStr :=
  ((l.dropWhile pyIsSpace).reverse.dropWhile pyIsSpace).reverse

/-- Python `str.ljust(w)`: pad on the right with spaces up to width `w`. -/
def pyLjust (s : PyStr) (w : Nat) : PyStr := s ++ List.replicate (w - s.length) ' '

/-- Python `sep.join(parts)`. -/
def joinSep (sep : PyStr) : List PyStr → PyStr
  | [] => []
  | [x] => x
  | x :: y :: t => x ++ sep ++ joinSep sep (y :: t)

/-- Python `s.split(c)` for a single-character separator: used to talk about
the lines of the formatter's output. -/
def splitOnChar (c : Char) : PyStr → List PyStr
  | [] => [[]]
  | a :: rest =>
    match splitOnChar c rest with
    | [] => [[]]
    | h :: t => if a = c then [] :: h :: t else (a :: h) :: t

/-- The lines of a string: split on the newline character. -/
def lineSplit (l : PyStr) : List PyStr := splitOnChar '\n' l

/-- The column separator `" | "` used by `pretty_table`. -/
def sepStr : PyStr := [' ', '|', ' ']

/-- Python `s.count(pat)`: number of non-overlapping occurrences of `pat`
in `l`, scanning left to right. -/
def countSub (pat : PyStr) (l : PyStr) : Nat :=
  match l with
  | [] => 0
  | a :: rest =>
    if pat ≠ [] ∧ pat.isPrefixOf (a :: rest)
    then 1 + countSub pat (List.drop (pat.length - 1) rest)
    else countSub pat rest
termination_by l.length
decreasing_by
  all_goals simp [List.length_drop]
  all_goals omega

/-- Strict lexicographic comparison of Python strings by code point,
as used by Python `sorted` on strings. -/
def strLtB : PyStr → PyStr → Bool
  | [], [] => false
  | [], _ :: _ => true
  | _ :: _, [] => false
  | a :: as, b :: bs => if a < b then true else if b < a then false else strLtB as bs

/-- Insert a key into an ascending list of keys (helper of `sortStrs`). -/
def insertKey (k : PyStr) : List PyStr → List PyStr
  | [] => [k]
  | y :: ys => if strLtB y k then y :: insertKey k ys else k :: y :: ys

/-- Python `sorted` on a list of strings (ascending code-point order). -/
def sortStrs : List PyStr → List PyStr
  | [] => []
  | x :: xs => insertKey x (sortStrs xs)

/-- The apostrophe character (used by Python `repr` of a string). -/
def quoteChar : Char := Char.ofNat 39

/-- Python `repr` of a string key, for keys containing no quote or escape
characters: the string wrapped in single quotes. -/
def pyRepr (s : PyStr) : PyStr := quoteChar :: s ++ [quoteChar]

/-- Python `str` of a list of string keys: `repr` of each element, joined by
`", "`, wrapped in square brackets. -/
def pyListStr (l : List PyStr) : PyStr :=
  ('[' :: joinSep [',', ' '] (l.map pyRepr)) ++ [']']

/-- A table cell value.  `pretty_table` only ever applies `str(...)` to cells,
so only the display-relevant cases are embedded: strings and integers. -/
inductive Cell where
  | str (s : PyStr)
  | int (n : Int)
deriving DecidableEq

/-- Python `str(cell)` for an embedded cell value. -/
def dispCell : Cell → PyStr
  | .str s => s
  | .int n => (toString n).data

/-- One input row of `pretty_table`: a sequence, a mapping, or an object
with a `__dict__` (embedded by its field-name/value entries). -/
inductive Row where
  | seq (cells : List Cell)
  | map (entries : List (PyStr × Cell))
  | obj (entries : List (PyStr × Cell))
deriving DecidableEq

/-- Whether a row is sequence-like. -/
def Row.isSeq : Row → Bool
  | .seq _ => true
  | _ => false

/-- The failure modes of `pretty_table` and its dict helper:
the `ValueError` for mixed row kinds, the `ValueError` for mismatched
sequence lengths (carrying both lengths and both row contents),
the `KeyError` raised by `_helpful_dict_error` (carrying its message),
and the `IndexError` escaping from `rows[0]` on an empty row list. -/
inductive TableError where
  | mixError
  | lengthMismatch (firstLen : Nat) (firstRow : List Cell) (curLen : Nat) (curRow : List Cell)
  | keyError (msg : PyStr)
  | indexError
deriving DecidableEq

/-- Python dict lookup `d[key]` on an association list (first match wins;
a Python dict has unique keys, so at most one entry per key arises). -/
def alookup (d : List (PyStr × Cell)) (k : PyStr) : Option Cell :=
  match d with
  | [] => none
  | (k2, v) :: t => if k2 = k then some v else alookup t k

/-- Python `d.keys()`. -/
def keysOf (d : List (PyStr × Cell)) : List PyStr := d.map Prod.fst

/-- The message of the `KeyError` raised by `_helpful_dict_error`:
`'Tried to access %r, only keys are: %s' % (key, str(sorted(d.keys()))[:1000])`. -/
def helpfulDictMsg (d : List (PyStr × Cell)) (key : PyStr) : PyStr :=
  ("Tried to access ").data ++ pyRepr key ++ (", only keys are: ").data
    ++ List.take 1000 (pyListStr (sortStrs (keysOf d)))

/-- `_helpful_dict_error(d, key)`: the `KeyError` it raises. -/
def _helpful_dict_error (d : List (PyStr × Cell)) (key : PyStr) : TableError :=
  .keyError (helpfulDictMsg d key)

/-- `helpful_error_dict_get(d, key)`: return `d[key]`, or fail with the
helpful `KeyError` when the key is absent. -/
def helpful_error_dict_get (d : List (PyStr × Cell)) (key : PyStr) : Except TableError Cell :=
  match alookup d key with
  | some v => .ok v
  | none => .error (_helpful_dict_error d key)

/-- The value of the `row_type[0]` closure cell in `pretty_table`:
`None`, `'sequence'`, `'mapping'`, or `'any'`. -/
inductive RowKind where
  | unset
  | sequence
  | mapping
  | any
deriving DecidableEq

/-- The mutable state of one `pretty_table` call: the accumulated `rows2`,
the `header` list, and the established row kind. -/
structure TState where
  rows2 : List (List Cell)
  header : List PyStr
  rt : RowKind
deriving DecidableEq

/-- `require_type(t)`: fail when the established kind conflicts with `t`,
and establish `t` when no kind is set yet. -/
def require_type (rt t : RowKind) : Except TableError RowKind :=
  if rt ≠ .unset ∧ rt ≠ t ∧ rt ≠ .any then .error .mixError
  else if rt = .unset then .ok t else .ok rt

/-- The list comprehension `[helpful_error_dict_get(d, key) for key in hdr]`:
the keys are looked up in order and the first missing key aborts with its
helpful `KeyError`. -/
def lookupRow (d : List (PyStr × Cell)) : List PyStr → Except TableError (List Cell)
  | [] => .ok []
  | k :: t => do
    let v ← helpful_error_dict_get d k
    let vs ← lookupRow d t
    .ok (v :: vs)

/-- `handle_dict(d)`: require the mapping kind; when no header exists yet,
derive it as the sorted keys of `d` and prepend it to `rows2`; then look up
every header key in `d` (failing helpfully on a missing key). -/
def handle_dict (st : TState) (d : List (PyStr × Cell)) :
    Except TableError (TState × List Cell) := do
  let rt ← require_type st.rt .mapping
  let hdr := if st.header = [] then sortStrs (keysOf d) else st.header
  let rows2 := if st.header = [] then hdr.map Cell.str :: st.rows2 else st.rows2
  let row ← lookupRow d hdr
  .ok (⟨rows2, hdr, rt⟩, row)

/-- The body of the `for row in rows` loop of `pretty_table`: normalise one
row and append it to `rows2`. -/
def processRow (st : TState) (r : Row) : Except TableError TState :=
  match r with
  | .seq cells => do
    let rt ← require_type st.rt .sequence
    match st.rows2 with
    | [] => .ok ⟨st.rows2 ++ [cells], st.header, rt⟩
    | r0 :: _ =>
      if cells.length ≠ r0.length then
        .error (.lengthMismatch r0.length r0 cells.length cells)
      else .ok ⟨st.rows2 ++ [cells], st.header, rt⟩
  | .map d => do
    let (st2, row) ← handle_dict st d
    .ok ⟨st2.rows2 ++ [row], st2.header, st2.rt⟩
  | .obj d => do
    let (st2, row) ← handle_dict st d
    .ok ⟨st2.rows2 ++ [row], st2.header, st2.rt⟩

/-- The per-column widths: for each column index below `n`, the maximum
display length of that column over all rows (`max` over a nonempty list of
naturals, written as a fold from 0). -/
def columnWidths (rows : List (List PyStr)) (n : Nat) : List Nat :=
  (List.range n).map (fun i => (rows.map (fun r => (r.getD i []).length)).foldl Nat.max 0)

/-- One output line: cells left-justified to their column widths, joined by
`" | "`, with surrounding whitespace stripped. -/
def renderLine (widths : List Nat) (row : List PyStr) : PyStr :=
  pyStrip (joinSep sepStr (List.zipWith pyLjust row widths))

/-- The display form of the accumulated rows: `str` applied to each cell. -/
def dispRows (rows2 : List (List Cell)) : List (List PyStr) :=
  rows2.map (fun r => r.map dispCell)

/-- All rendered lines of a table, with column widths computed over the
first `n` columns. -/
def tableLines (rows2 : List (List Cell)) (n : Nat) : List PyStr :=
  (dispRows rows2).map (renderLine (columnWidths (dispRows rows2) n))

/-- `lines.insert(1, '-' * len(lines[0]))`, performed only when a header is
present. -/
def withDash (headerPresent : Bool) (lines : List PyStr) : List PyStr :=
  if headerPresent then
    match lines with
    | [] => []
    | l0 :: ls => l0 :: List.replicate l0.length '-' :: ls
  else lines

/-- The rendering tail of `pretty_table`: stringify all cells, compute column
widths from the first row's length (stringification preserves row lengths),
render every row, insert the dash line below the header when one is present,
and join with newlines.  An empty `rows2` (or a row shorter than the first
one) reproduces the uncaught `IndexError` of the source. -/
def renderTable (rows2 : List (List Cell)) (headerPresent : Bool) :
    Except TableError PyStr :=
  match rows2 with
  | [] => .error .indexError
  | r0 :: _ =>
    if rows2.any (fun r => r.length < r0.length) then .error .indexError
    else .ok (joinSep ['\n'] (withDash headerPresent (tableLines rows2 r0.length)))

/-- `pretty_table(rows, header=None)`.  A supplied header is embedded as an
explicit list of column names (`ensure_list_if_string` splitting is outside
the embedding); Python's truthiness test `if header:` makes an empty list
behave exactly like an absent header. -/
def pretty_table (rows : List Row) (header : Option (List PyStr) := none) :
    Except TableError PyStr := do
  let hdr0 := header.getD []
  let st0 : TState :=
    if hdr0 ≠ [] then ⟨[hdr0.map Cell.str], hdr0, .any⟩ else ⟨[], [], .unset⟩
  let st ← List.foldlM processRow st0 rows
  renderTable st.rows2 (!st.header.isEmpty)

deriving instance DecidableEq for Except

/-! ## The tolerant JSON encoder (`DecentJSONEncoder`) -/

/-- A Python iterator over values of type `α`, as obtained from `iter(o)`:
it yields either a finite list of items or an unbounded stream. -/
inductive PyIter (α : Type) where
  | fin (xs : List α)
  | inf (f : Nat → α)

/-- `itertools.islice(it, n)` materialised as a list: at most `n` items are
drawn from the iterator. -/
def PyIter.islice {α : Type} : PyIter α → Nat → List α
  | .fin xs, n => xs.take n
  | .inf f, n => (List.range n).map f

/-- Whether the iterator yields at least `n` items. -/
def PyIter.yieldsAtLeast {α : Type} : PyIter α → Nat → Bool
  | .fin xs, n => decide (n ≤ xs.length)
  | .inf _, _ => true

/-- A `datetime.datetime` value (the encoder only serialises values with a
zero microsecond field, so microseconds are not carried). -/
structure PyDatetime where
  year : Nat
  month : Nat
  day : Nat
  hour : Nat
  minute : Nat
  second : Nat
deriving DecidableEq

/-- A value matching `isinstance(o, date)`: either a pure `datetime.date`
or a `datetime.datetime` (which subclasses `date` in Python). -/
inductive PyDateLike where
  | dateOnly (y m d : Nat)
  | dt (v : PyDatetime)
deriving DecidableEq

/-- `date_to_datetime(d)`: a pure date is combined with `datetime.min.time()`
(midnight); a datetime is returned unchanged. -/
def date_to_datetime : PyDateLike → PyDatetime
  | .dateOnly y m d => ⟨y, m, d, 0, 0, 0⟩
  | .dt v => v

/-- Decimal rendering of a natural number, zero-padded to width `w`. -/
def padNum (w n : Nat) : PyStr :=
  let s := (Nat.repr n).data
  List.replicate (w - s.length) '0' ++ s

/-- `datetime.isoformat()` for a datetime with zero microseconds:
`YYYY-MM-DDTHH:MM:SS`. -/
def PyDatetime.isoformat (v : PyDatetime) : PyStr :=
  padNum 4 v.year ++ ['-'] ++ padNum 2 v.month ++ ['-'] ++ padNum 2 v.day
    ++ ['T'] ++ padNum 2 v.hour ++ [':'] ++ padNum 2 v.minute ++ [':'] ++ padNum 2 v.second

/-- `time.isoformat()` for a time with zero microseconds: `HH:MM:SS`. -/
def timeIsoformat (h mi s : Nat) : PyStr :=
  padNum 2 h ++ [':'] ++ padNum 2 mi ++ [':'] ++ padNum 2 s

/-- Python `float(o)` applied to a `Decimal` or `Fraction`.  The source
converts the exact value to an IEEE-754 double; the embedding keeps the
exact rational value (the final binary rounding step is floating-point
behaviour outside the scope of this embedding). -/
def pyFloat (q : Rat) : Rat := q

/-- A value handed to `DecentJSONEncoder.default`, classified by the
`isinstance` chain of the source: a `Sequence` (a string, list, tuple, or
another sequence type such as `UserList`, with its elements), a `Mapping`
(its entries), a `Decimal` or `Rational` (its exact value), a date-like or
time value, some other object supporting `iter(o)` (with its type name), or
an object supporting none of these (with its type name). -/
inductive PyObj (α : Type) where
  | seqStr (s : PyStr)
  | seqList (xs : List α)
  | seqTuple (xs : List α)
  | seqOther (xs : List α)
  | mapping (entries : List (PyStr × α))
  | decimalV (q : Rat)
  | rationalV (q : Rat)
  | dateLike (d : PyDateLike)
  | timeV (h mi s : Nat)
  | iterObj (typeName : PyStr) (it : PyIter α)
  | plainObj (typeName : PyStr)

/-- The JSON-primitive-equivalent result returned by the hook. -/
inductive JRes (α : Type) where
  | jstr (s : PyStr)
  | jlist (xs : List α)
  | jtuple (xs : List α)
  | jdict (entries : List (PyStr × α))
  | jfloat (q : Rat)
deriving DecidableEq

/-- The failures of the hook: the `ValueError` for an oversized iterable
(naming the value's type and the configured limit), and the `TypeError`
raised by the base class for unsupported values. -/
inductive EncErr where
  | tooLarge (typeName : PyStr) (limit : Nat)
  | typeError (typeName : PyStr)
deriving DecidableEq

/-- The default of the `max_iterable_elements` option popped in
`DecentJSONEncoder.__init__`. -/
def defaultMaxIterableElements : Nat := 10000

/-- `DecentJSONEncoder.default(o)`: the ordered classification chain of the
source.  A non-primitive sequence is copied to a tuple; a string, list or
tuple is returned as-is; a mapping is copied to a dict; `Decimal`/`Rational`
become floats; a date (or datetime) becomes the ISO string of
`date_to_datetime`; a time becomes its ISO string; otherwise `iter(o)` is
attempted and up to `max_iterable_elements + 1` items are drawn, failing
when more than `max_iterable_elements` arrive; a non-iterable value takes
the base class `TypeError` path. -/
def DecentJSONEncoder.default {α : Type} (maxIterableElements : Nat) :
    PyObj α → Except EncErr (JRes α)
  | .seqStr s => .ok (.jstr s)
  | .seqList xs => .ok (.jlist xs)
  | .seqTuple xs => .ok (.jtuple xs)
  | .seqOther xs => .ok (.jtuple xs)
  | .mapping es => .ok (.jdict es)
  | .decimalV q => .ok (.jfloat (pyFloat q))
  | .rationalV q => .ok (.jfloat (pyFloat q))
  | .dateLike d => .ok (.jstr (date_to_datetime d).isoformat)
  | .timeV h mi s => .ok (.jstr (timeIsoformat h mi s))
  | .iterObj tn it =>
    let result := it.islice (maxIterableElements + 1)
    if result.length > maxIterableElements then .error (.tooLarge tn maxIterableElements)
    else .ok (.jlist result)
  | .plainObj tn => .error (.typeError tn)

section SanityChecks

example : pretty_table [Row.seq [Cell.str ('a' :: []), Cell.str ("hello").data,
    Cell.str ('c' :: []), Cell.int 1],
    Row.seq [Cell.str ("world").data, Cell.str ('b' :: []), Cell.str ('d' :: []), Cell.int 2]] none
    = .ok ("a     | hello | c | 1\nworld | b     | d | 2").data := by decide

example : pretty_table [Row.map [(('a' :: []), Cell.int 1), (('b' :: []), Cell.int 2)],
    Row.map [(('a' :: []), Cell.int 3), (('b' :: []), Cell.int 4)]] none
    = .ok ("a | b\n-----\n1 | 2\n3 | 4").data := by decide

example : pretty_table [Row.seq [Cell.int 1, Cell.int 2], Row.seq [Cell.int 3, Cell.int 4, Cell.int 5]] none
    = .error (.lengthMismatch 2 [Cell.int 1, Cell.int 2] 3 [Cell.int 3, Cell.int 4, Cell.int 5]) := by
  decide

example : pretty_table [Row.map [(('a' :: []), Cell.int 1), (('b' :: []), Cell.int 2)],
    Row.obj [(('a' :: []), Cell.int 3), (('b' :: []), Cell.int 4)], Row.seq [Cell.int 5, Cell.int 6]]
    (some [('b' :: []), ('a' :: [])])
    = .ok ("b | a\n-----\n2 | 1\n4 | 3\n5 | 6").data := by decide

example : pretty_table [Row.map [(('a' :: []), Cell.int 1), (('b' :: []), Cell.int 2)],
    Row.obj [(('a' :: []), Cell.int 3), (('b' :: []), Cell.int 4)], Row.seq [Cell.int 5, Cell.int 6]] none
    = .error .mixError := by decide

example : DecentJSONEncoder.default (α := Nat) defaultMaxIterableElements
    (PyObj.dateLike (PyDateLike.dateOnly 2001 2 3))
    = .ok (.jstr ("2001-02-03T00:00:00").data) := by decide

example : DecentJSONEncoder.default (α := Nat) defaultMaxIterableElements
    (PyObj.dateLike (PyDateLike.dt ⟨2004, 5, 6, 7, 8, 9⟩))
    = .ok (.jstr ("2004-05-06T07:08:09").data) := by decide

example : DecentJSONEncoder.default (α := Nat) defaultMaxIterableElements
    (PyObj.timeV 10 11 12) = .ok (.jstr ("10:11:12").data) := by decide

example : DecentJSONEncoder.default (α := Nat) 2 (PyObj.iterObj ("repeat").data (PyIter.inf (fun _ => 5)))
    = .error (.tooLarge ("repeat").data 2) := by decide

example : DecentJSONEncoder.default (α := Nat) 3 (PyObj.iterObj ("g").data (PyIter.fin [0, 1, 2]))
    = .ok (.jlist [0, 1, 2]) := by decide

end SanityChecks

/-! ## Supporting lemmas -/

lemma islice_length_le {α : Type} (it : PyIter α) (n : Nat) :
    (it.islice n).length ≤ n := by
  cases it with
  | fin xs => simp [PyIter.islice]
  | inf f => simp [PyIter.islice]

lemma islice_length_of_atLeast {α : Type} (it : PyIter α) (n : Nat)
    (h : it.yieldsAtLeast n = true) : (it.islice n).length = n := by
  cases it with
  | fin xs =>
    simp [PyIter.yieldsAtLeast] at h
    simp [PyIter.islice]
    omega
  | inf f => simp [PyIter.islice]

lemma lookupRow_ok (d : List (PyStr × Cell)) (hdr : List PyStr)
    (h : ∀ k ∈ hdr, alookup d k ≠ none) :
    lookupRow d hdr = .ok (hdr.map (fun k => (alookup d k).getD (Cell.str []))) := by
  induction hdr with
  | nil => rfl
  | cons a t ih =>
    have ha : alookup d a ≠ none := h a (by simp)
    obtain ⟨v, hv⟩ : ∃ v, alookup d a = some v := by
      cases hav : alookup d a with
      | none => exact absurd hav ha
      | some v => exact ⟨v, rfl⟩
    have ht := ih (fun k hk => h k (by simp [hk]))
    simp [lookupRow, helpful_error_dict_get, hv, ht]
    rfl

lemma lookupRow_err (d : List (PyStr × Cell)) (pre : List PyStr) (key : PyStr)
    (post : List PyStr) (hpre : ∀ k ∈ pre, alookup d k ≠ none)
    (hk : alookup d key = none) :
    lookupRow d (pre ++ key :: post) = .error (_helpful_dict_error d key) := by
  induction pre with
  | nil =>
    show lookupRow d (key :: post) = _
    simp [lookupRow, helpful_error_dict_get, hk]
    rfl
  | cons a t ih =>
    have ha : alookup d a ≠ none := hpre a (by simp)
    obtain ⟨v, hv⟩ : ∃ v, alookup d a = some v := by
      cases hav : alookup d a with
      | none => exact absurd hav ha
      | some v => exact ⟨v, rfl⟩
    have ht := ih (fun k hk2 => hpre k (by simp [hk2]))
    show lookupRow d (a :: (t ++ key :: post)) = _
    simp [lookupRow, helpful_error_dict_get, hv, ht]
    rfl

lemma require_type_ok (rt t : RowKind) (h : rt = .unset ∨ rt = t ∨ rt = .any) :
    require_type rt t = .ok (if rt = .unset then t else rt) := by
  rcases h with h | h | h
  · subst h; simp [require_type]
  · subst h
    by_cases ht : rt = RowKind.unset <;> simp [require_type, ht]
  · subst h; simp [require_type]

/-! ## String-level lemmas for the rendering pipeline -/

lemma splitOnChar_ne_nil (c : Char) (l : PyStr) : splitOnChar c l ≠ [] := by
  induction l with
  | nil => simp [splitOnChar]
  | cons a rest ih =>
    simp only [splitOnChar]
    cases h : splitOnChar c rest with
    | nil => simp
    | cons x t =>
      by_cases hac : a = c <;> simp [hac]

lemma splitOnChar_not_mem (c : Char) (l : PyStr) (h : c ∉ l) :
    splitOnChar c l = [l] := by
  induction l with
  | nil => rfl
  | cons a rest ih =>
    have hac : a ≠ c := fun he => h (by simp [he])
    have hrest : c ∉ rest := fun hm => h (by simp [hm])
    simp only [splitOnChar, ih hrest]
    simp [hac]

lemma splitOnChar_append (c : Char) (l rest : PyStr) (h : c ∉ l) :
    splitOnChar c (l ++ c :: rest) = l :: splitOnChar c rest := by
  induction l with
  | nil =>
    simp only [List.nil_append, splitOnChar]
    cases hs : splitOnChar c rest with
    | nil => exact absurd hs (splitOnChar_ne_nil c rest)
    | cons x t => simp
  | cons a l2 ih =>
    have hac : a ≠ c := fun he => h (by simp [he])
    have hl2 : c ∉ l2 := fun hm => h (by simp [hm])
    have h2 := ih hl2
    show splitOnChar c (a :: (l2 ++ c :: rest)) = _
    simp only [splitOnChar]
    rw [h2]
    simp [hac]

lemma lineSplit_joinSep (parts : List PyStr) (hne : parts ≠ [])
    (h : ∀ p ∈ parts, '\n' ∉ p) :
    lineSplit (joinSep ['\n'] parts) = parts := by
  induction parts with
  | nil => exact absurd rfl hne
  | cons p rest ih =>
    cases rest with
    | nil =>
      show lineSplit (joinSep ['\n'] [p]) = [p]
      exact splitOnChar_not_mem '\n' p (h p (by simp))
    | cons q t =>
      have hp : '\n' ∉ p := h p (by simp)
      have hrest := ih (by simp) (fun x hx => h x (by simp [hx]))
      show splitOnChar '\n' (p ++ ['\n'] ++ joinSep ['\n'] (q :: t)) = _
      rw [List.append_assoc]
      show splitOnChar '\n' (p ++ '\n' :: joinSep ['\n'] (q :: t)) = _
      rw [splitOnChar_append '\n' p _ hp]
      exact congrArg (p :: ·) hrest

lemma mem_joinSep (sep : PyStr) (x : Char) :
    ∀ (parts : List PyStr), x ∈ joinSep sep parts → x ∈ sep ∨ ∃ p ∈ parts, x ∈ p := by
  intro parts
  induction parts with
  | nil => simp [joinSep]
  | cons p rest ih =>
    cases rest with
    | nil =>
      intro hx
      exact Or.inr ⟨p, by simp, hx⟩
    | cons q t =>
      intro hx
      have hx0 : x ∈ p ++ sep ++ joinSep sep (q :: t) := hx
      rcases List.mem_append.mp hx0 with hx2 | hx3
      · rcases List.mem_append.mp hx2 with hp | hs
        · exact Or.inr ⟨p, by simp, hp⟩
        · exact Or.inl hs
      · rcases ih hx3 with hs | ⟨r, hr, hxr⟩
        · exact Or.inl hs
        · exact Or.inr ⟨r, by simp [hr], hxr⟩

lemma joinSep_length (c : Char) (parts : List PyStr) (hne : parts ≠ []) :
    (joinSep [c] parts).length = (parts.map List.length).sum + parts.length - 1 := by
  induction parts with
  | nil => exact absurd rfl hne
  | cons p rest ih =>
    cases rest with
    | nil => simp [joinSep]
    | cons q t =>
      have hJ := ih (by simp)
      show (p ++ [c] ++ joinSep [c] (q :: t)).length = _
      simp only [List.length_append, List.length_cons, List.length_nil,
        List.map_cons, List.sum_cons] at hJ ⊢
      omega

lemma head?_append_left {α : Type} (l l2 : List α) (h : l ≠ []) :
    (l ++ l2).head? = l.head? := by
  cases l with
  | nil => exact absurd rfl h
  | cons a t => rfl

lemma getLast?_append_right {α : Type} (l l2 : List α) (h : l2 ≠ []) :
    (l ++ l2).getLast? = l2.getLast? := by
  rw [← List.head?_reverse, ← List.head?_reverse, List.reverse_append]
  exact head?_append_left l2.reverse l.reverse (by simpa using h)

lemma joinSep_head? (sep p : PyStr) (ps : List PyStr) (h : p ≠ []) :
    (joinSep sep (p :: ps)).head? = p.head? := by
  cases ps with
  | nil => rfl
  | cons q t =>
    show (p ++ sep ++ joinSep sep (q :: t)).head? = _
    rw [List.append_assoc]
    exact head?_append_left p _ h

lemma joinSep_getLast? (sep c : PyStr) (hc : c ≠ []) :
    ∀ (ps : List PyStr), (joinSep sep (ps ++ [c])).getLast? = c.getLast? := by
  intro ps
  induction ps with
  | nil => rfl
  | cons x xs ih =>
    have hJne : joinSep sep (xs ++ [c]) ≠ [] := by
      intro hnil
      have h2 : (joinSep sep (xs ++ [c])).getLast? = c.getLast? := ih
      rw [hnil] at h2
      have h3 : c.getLast?.isSome := List.getLast?_isSome.mpr hc
      rw [← h2] at h3
      simp at h3
    cases hxs : xs ++ [c] with
    | nil => exact absurd hxs (by simp)
    | cons y t =>
      show (joinSep sep (x :: (xs ++ [c]))).getLast? = _
      rw [hxs]
      show (x ++ sep ++ joinSep sep (y :: t)).getLast? = _
      rw [getLast?_append_right _ _ (by rw [← hxs]; exact hJne)]
      rw [← hxs]
      exact ih

lemma joinSep_pad_last (sep : PyStr) (c pad : PyStr) :
    ∀ (init : List PyStr),
      joinSep sep (init ++ [c ++ pad]) = joinSep sep (init ++ [c]) ++ pad := by
  intro init
  induction init with
  | nil => rfl
  | cons x xs ih =>
    cases xs with
    | nil =>
      show x ++ sep ++ (c ++ pad) = (x ++ sep ++ c) ++ pad
      simp [List.append_assoc]
    | cons y ys =>
      show x ++ sep ++ joinSep sep ((y :: ys) ++ [c ++ pad])
          = (x ++ sep ++ joinSep sep ((y :: ys) ++ [c])) ++ pad
      rw [ih]
      simp [List.append_assoc]

lemma dropWhile_replicate_append (p : Char → Bool) (c : Char) (hp : p c = true)
    (l : PyStr) : ∀ (n : Nat), (List.replicate n c ++ l).dropWhile p = l.dropWhile p := by
  intro n
  induction n with
  | zero => rfl
  | succ k ih =>
    show ((c :: List.replicate k c) ++ l).dropWhile p = _
    simp only [List.cons_append, List.dropWhile_cons, hp, if_true]
    exact ih

lemma dropWhile_cons_false (p : Char → Bool) (a : Char) (l : PyStr)
    (h : p a = false) : (a :: l).dropWhile p = a :: l := by
  simp [List.dropWhile_cons, h]

/-- Stripping a string with a non-space first character and a non-space last
character, followed by space padding, gives back the string itself. -/
lemma pyStrip_pad (K : PyStr) (n : Nat) (hK : K ≠ [])
    (hh : ∀ a, K.head? = some a → pyIsSpace a = false)
    (hl : ∀ a, K.getLast? = some a → pyIsSpace a = false) :
    pyStrip (K ++ List.replicate n ' ') = K := by
  obtain ⟨a, K2, rfl⟩ : ∃ a K2, K = a :: K2 := by
    cases K with
    | nil => exact absurd rfl hK
    | cons a K2 => exact ⟨a, K2, rfl⟩
  have ha : pyIsSpace a = false := hh a rfl
  show ((((a :: K2) ++ List.replicate n ' ').dropWhile pyIsSpace).reverse.dropWhile
      pyIsSpace).reverse = _
  rw [List.cons_append, dropWhile_cons_false pyIsSpace a _ ha, ← List.cons_append,
    List.reverse_append, List.reverse_replicate,
    dropWhile_replicate_append pyIsSpace ' ' (by decide)]
  obtain ⟨b, hb⟩ : ∃ b, (a :: K2).getLast? = some b := ⟨(a :: K2).getLast (by simp),
    List.getLast?_eq_getLast _ (by simp)⟩
  have hbns : pyIsSpace b = false := hl b hb
  have hrev : (a :: K2).reverse.head? = some b := by
    rw [List.head?_reverse]
    exact hb
  obtain ⟨R, hR⟩ : ∃ R, (a :: K2).reverse = b :: R := by
    cases hr : (a :: K2).reverse with
    | nil => rw [hr] at hrev; exact Option.noConfusion hrev
    | cons x R =>
      rw [hr] at hrev
      exact ⟨R, by rw [(Option.some_inj.mp hrev)]⟩
  rw [hR, dropWhile_cons_false pyIsSpace b R hbns, ← hR, List.reverse_reverse]

/-- If `" | "` is a prefix of `a :: l`, the head of `l` is the bar. -/
lemma sep_prefix_head (a : Char) (l : PyStr)
    (h : sepStr.isPrefixOf (a :: l) = true) : l.head? = some '|' := by
  cases l with
  | nil => simp [sepStr, List.isPrefixOf] at h
  | cons b t =>
    cases t with
    | nil => simp [sepStr, List.isPrefixOf] at h
    | cons c u =>
      simp [sepStr, List.isPrefixOf] at h
      obtain ⟨-, hb, -⟩ := h
      subst hb
      rfl

lemma countSub_no_bar (l : PyStr) (h : '|' ∉ l) : countSub sepStr l = 0 := by
  induction l with
  | nil => simp [countSub]
  | cons a rest ih =>
    have hpre : ¬(sepStr ≠ [] ∧ sepStr.isPrefixOf (a :: rest) = true) := by
      rintro ⟨-, hp⟩
      have hh := sep_prefix_head a rest hp
      cases rest with
      | nil => exact Option.noConfusion hh
      | cons b t =>
        have : b = '|' := Option.some_inj.mp hh
        exact h (by simp [this])
    rw [countSub]
    simp only [hpre, if_false]
    exact ih (fun hm => h (by simp [hm]))

lemma countSub_skip (g tail : PyStr) (hg : '|' ∉ g)
    (ht : tail.head? ≠ some '|') :
    countSub sepStr (g ++ tail) = countSub sepStr tail := by
  induction g with
  | nil => rfl
  | cons a g2 ih =>
    have hpre : ¬(sepStr ≠ [] ∧ sepStr.isPrefixOf (a :: (g2 ++ tail)) = true) := by
      rintro ⟨-, hp⟩
      have hh := sep_prefix_head a (g2 ++ tail) hp
      cases g2 with
      | nil => exact ht hh
      | cons b t =>
        have : b = '|' := Option.some_inj.mp hh
        exact hg (by simp [this])
    show countSub sepStr (a :: (g2 ++ tail)) = _
    rw [countSub]
    simp only [hpre, if_false]
    exact ih (fun hm => hg (by simp [hm]))

lemma countSub_sep_prepend (l : PyStr) :
    countSub sepStr (sepStr ++ l) = 1 + countSub sepStr l := by
  show countSub sepStr (' ' :: '|' :: ' ' :: l) = _
  rw [countSub]
  have hpre : (sepStr ≠ [] ∧ sepStr.isPrefixOf (' ' :: '|' :: ' ' :: l) = true) := by
    refine ⟨by simp [sepStr], ?_⟩
    simp [sepStr, List.isPrefixOf]
  simp only [hpre, if_true]
  rfl

lemma countSub_joinSep (parts : List PyStr) (hne : parts ≠ [])
    (h : ∀ p ∈ parts, '|' ∉ p) :
    countSub sepStr (joinSep sepStr parts) = parts.length - 1 := by
  induction parts with
  | nil => exact absurd rfl hne
  | cons p rest ih =>
    cases rest with
    | nil =>
      show countSub sepStr p = 0
      exact countSub_no_bar p (h p (by simp))
    | cons q t =>
      have hp : '|' ∉ p := h p (by simp)
      have hrest := ih (by simp) (fun x hx => h x (by simp [hx]))
      show countSub sepStr (p ++ sepStr ++ joinSep sepStr (q :: t)) = _
      rw [List.append_assoc, countSub_skip p _ hp (by
        rw [head?_append_left sepStr _ (by simp [sepStr])]
        simp [sepStr]),
        countSub_sep_prepend, hrest]
      simp only [List.length_cons]
      omega

/-! ## Good cell displays and the per-line rendering lemma -/

/-- A display string that renders predictably inside a table line: nonempty,
free of the bar and newline characters, and not starting or ending in
whitespace. -/
def goodDisp (s : PyStr) : Prop :=
  s ≠ [] ∧ (∀ c ∈ s, c ≠ '|' ∧ c ≠ '\n') ∧
    pyIsSpace (s.headD 'x') = false ∧ pyIsSpace (s.getLastD 'x') = false

instance (s : PyStr) : Decidable (goodDisp s) := by
  unfold goodDisp
  infer_instance

lemma goodDisp_head? (s : PyStr) (hg : goodDisp s) :
    ∀ a, s.head? = some a → pyIsSpace a = false := by
  intro a ha
  obtain ⟨hne, -, hh, -⟩ := hg
  cases s with
  | nil => exact Option.noConfusion ha
  | cons b t =>
    have : b = a := Option.some_inj.mp ha
    subst this
    exact hh

lemma goodDisp_getLast? (s : PyStr) (hg : goodDisp s) :
    ∀ a, s.getLast? = some a → pyIsSpace a = false := by
  intro a ha
  obtain ⟨hne, -, -, hl⟩ := hg
  have : s.getLastD 'x' = a := by
    rw [List.getLastD_eq_getLast?, ha]
    rfl
  rw [← this]
  exact hl

lemma zipWith_ljust_mem (cells : List PyStr) (widths : List Nat) (pc : PyStr)
    (h : pc ∈ List.zipWith pyLjust cells widths) :
    ∃ c ∈ cells, ∃ k, pc = c ++ List.replicate k ' ' := by
  induction cells generalizing widths with
  | nil => simp at h
  | cons c0 cs ih =>
    cases widths with
    | nil => simp at h
    | cons w0 ws =>
      simp only [List.zipWith_cons_cons, List.mem_cons] at h
      rcases h with h0 | h1
      · exact ⟨c0, by simp, w0 - c0.length, h0⟩
      · obtain ⟨c, hc, k, hk⟩ := ih ws h1
        exact ⟨c, by simp [hc], k, hk⟩

lemma renderLine_spec (widths : List Nat) (cells : List PyStr)
    (hw : widths.length = cells.length) (hne : cells ≠ [])
    (hg : ∀ c ∈ cells, goodDisp c) :
    countSub sepStr (renderLine widths cells) = cells.length - 1
      ∧ '\n' ∉ renderLine widths cells := by
  obtain ⟨cl, cs, rfl⟩ : ∃ cl cs, cells = cs ++ [cl] := by
    refine ⟨cells.getLast hne, cells.dropLast, ?_⟩
    rw [List.dropLast_append_getLast hne]
  obtain ⟨wl, ws, rfl⟩ : ∃ wl ws, widths = ws ++ [wl] := by
    have hwne : widths ≠ [] := by
      intro h0
      rw [h0] at hw
      simp at hw
    refine ⟨widths.getLast hwne, widths.dropLast, ?_⟩
    rw [List.dropLast_append_getLast hwne]
  have hlen : cs.length = ws.length := by
    simp at hw
    omega
  have hzip : List.zipWith pyLjust (cs ++ [cl]) (ws ++ [wl])
      = List.zipWith pyLjust cs ws ++ [pyLjust cl wl] := by
    rw [List.zipWith_append _ _ _ _ _ (by omega)]
    rfl
  have hgl : goodDisp cl := hg cl (by simp)
  have hpad : ∀ pc ∈ List.zipWith pyLjust cs ws, ∃ c ∈ cs, ∃ k,
      pc = c ++ List.replicate k ' ' := fun pc hpc => zipWith_ljust_mem cs ws pc hpc
  have hbarpad : ∀ pc ∈ List.zipWith pyLjust cs ws, '|' ∉ pc := by
    intro pc hpc hbar
    obtain ⟨c, hc, k, rfl⟩ := hpad pc hpc
    rcases List.mem_append.mp hbar with h1 | h2
    · exact ((hg c (by simp [hc])).2.1 '|' h1).1 rfl
    · have := List.eq_of_mem_replicate h2
      exact absurd this (by decide)
  have hnlpad : ∀ pc ∈ List.zipWith pyLjust cs ws, '\n' ∉ pc := by
    intro pc hpc hnl
    obtain ⟨c, hc, k, rfl⟩ := hpad pc hpc
    rcases List.mem_append.mp hnl with h1 | h2
    · exact ((hg c (by simp [hc])).2.1 '\n' h1).2 rfl
    · have := List.eq_of_mem_replicate h2
      exact absurd this (by decide)
  have hnecells : ∀ pc ∈ List.zipWith pyLjust cs ws, pc ≠ [] := by
    intro pc hpc h0
    obtain ⟨c, hc, k, hk⟩ := hpad pc hpc
    have hcnil : c = [] := by
      cases c with
      | nil => rfl
      | cons a t =>
        rw [hk] at h0
        exact List.noConfusion h0
    exact (hg c (by simp [hc])).1 hcnil
  have hKheads : ∀ a, (joinSep sepStr (List.zipWith pyLjust cs ws ++ [cl])).head? = some a
      → pyIsSpace a = false := by
    intro a ha
    rcases hps : List.zipWith pyLjust cs ws with _ | ⟨p0, ps⟩
    · rw [hps] at ha
      exact goodDisp_head? cl hgl a (by rw [← joinSep_head? sepStr cl [] hgl.1]; exact ha)
    · have hp0 := hnecells p0 (by rw [hps]; simp)
      obtain ⟨c, hc, k, hk⟩ := hpad p0 (by rw [hps]; simp)
      have hcne : c ≠ [] := (hg c (by simp [hc])).1
      rw [hps] at ha
      rw [List.cons_append] at ha
      rw [joinSep_head? sepStr p0 (ps ++ [cl]) hp0] at ha
      rw [hk, head?_append_left c _ hcne] at ha
      exact goodDisp_head? c (hg c (by simp [hc])) a ha
  have hKlast : ∀ a, (joinSep sepStr (List.zipWith pyLjust cs ws ++ [cl])).getLast? = some a
      → pyIsSpace a = false := by
    intro a ha
    rw [joinSep_getLast? sepStr cl hgl.1 _] at ha
    exact goodDisp_getLast? cl hgl a ha
  have hKne : joinSep sepStr (List.zipWith pyLjust cs ws ++ [cl]) ≠ [] := by
    intro h0
    obtain ⟨b, hb⟩ : ∃ b, cl.getLast? = some b := ⟨cl.getLast hgl.1,
      List.getLast?_eq_getLast _ hgl.1⟩
    have hKl : (joinSep sepStr (List.zipWith pyLjust cs ws ++ [cl])).getLast? = some b := by
      rw [joinSep_getLast? sepStr cl hgl.1 _]
      exact hb
    rw [h0] at hKl
    exact Option.noConfusion hKl
  have hline : renderLine (ws ++ [wl]) (cs ++ [cl])
      = joinSep sepStr (List.zipWith pyLjust cs ws ++ [cl]) := by
    show pyStrip (joinSep sepStr (List.zipWith pyLjust (cs ++ [cl]) (ws ++ [wl]))) = _
    rw [hzip]
    show pyStrip (joinSep sepStr
      (List.zipWith pyLjust cs ws ++ [cl ++ List.replicate (wl - cl.length) ' '])) = _
    rw [joinSep_pad_last sepStr cl _ _]
    exact pyStrip_pad _ _ hKne hKheads hKlast
  rw [hline]
  constructor
  · rw [countSub_joinSep (List.zipWith pyLjust cs ws ++ [cl]) (by simp) ?hbars]
    · have hplen : (List.zipWith pyLjust cs ws).length = cs.length := by
        simp
        omega
      simp [hplen]
    case hbars =>
      intro p hp
      rcases List.mem_append.mp hp with h1 | h2
      · exact hbarpad p h1
      · have : p = cl := by simpa using h2
        subst this
        intro hbar
        exact (hgl.2.1 '|' hbar).1 rfl
  · intro hnl
    rcases mem_joinSep sepStr '\n' (List.zipWith pyLjust cs ws ++ [cl]) hnl with
      hs | ⟨p, hp, hnp⟩
    · simp [sepStr] at hs
    · rcases List.mem_append.mp hp with h1 | h2
      · exact hnlpad p h1 hnp
      · have : p = cl := by simpa using h2
        subst this
        exact (hgl.2.1 '\n' hnp).2 rfl

/-! ## Lemmas about the row-processing fold -/

lemma columnWidths_length (rows : List (List PyStr)) (n : Nat) :
    (columnWidths rows n).length = n := by
  simp [columnWidths]

lemma renderTable_ok (r0 : List Cell) (rest : List (List Cell)) (hp : Bool)
    (hlen : ∀ r ∈ (r0 :: rest : List (List Cell)), r.length = r0.length) :
    renderTable (r0 :: rest) hp
      = .ok (joinSep ['\n'] (withDash hp (tableLines (r0 :: rest) r0.length))) := by
  have hany : ((r0 :: rest).any (fun r => decide (r.length < r0.length))) = false := by
    rw [List.any_eq_false]
    intro r hr
    rw [hlen r hr]
    simp
  simp [renderTable, hany]

lemma rowkind_not_mapping (rt : RowKind) (h : rt ≠ .mapping) :
    rt = .unset ∨ rt = .sequence ∨ rt = .any := by
  cases rt
  · exact Or.inl rfl
  · exact Or.inr (Or.inl rfl)
  · exact absurd rfl h
  · exact Or.inr (Or.inr rfl)

lemma require_type_seq (rt : RowKind) (h : rt ≠ .mapping) :
    require_type rt .sequence = .ok (if rt = .unset then .sequence else rt) := by
  rcases rowkind_not_mapping rt h with h1 | h1 | h1 <;> subst h1 <;> simp [require_type]

lemma processRow_seq_ok (st : TState) (cells : List Cell) (hrt : st.rt ≠ .mapping)
    (hlen : ∀ r0, st.rows2.head? = some r0 → cells.length = r0.length) :
    processRow st (.seq cells)
      = .ok ⟨st.rows2 ++ [cells], st.header, if st.rt = .unset then .sequence else st.rt⟩ := by
  obtain ⟨rows2, header, rt⟩ := st
  simp only at hrt hlen ⊢
  simp only [processRow]
  rw [require_type_seq rt hrt]
  cases rows2 with
  | nil => rfl
  | cons r0 rs =>
    have h0 : cells.length = r0.length := hlen r0 rfl
    simp [h0]
    rfl

lemma foldl_seq_rows (L : Nat) :
    ∀ (rs : List (List Cell)) (st : TState), st.rt ≠ .mapping →
      (∀ r ∈ rs, r.length = L) →
      (∀ r0, st.rows2.head? = some r0 → r0.length = L) →
      ∃ rt2, List.foldlM processRow st (rs.map Row.seq)
          = .ok ⟨st.rows2 ++ rs, st.header, rt2⟩ ∧ rt2 ≠ .mapping := by
  intro rs
  induction rs with
  | nil =>
    intro st hrt hall hhead
    refine ⟨st.rt, ?_, hrt⟩
    show List.foldlM processRow st [] = _
    rw [List.foldlM_nil]
    simp only [List.append_nil]
    rfl
  | cons r rest ih =>
    intro st hrt hall hhead
    have hr : r.length = L := hall r (by simp)
    have hstep := processRow_seq_ok st r hrt (by
      intro r0 h0
      rw [hr, hhead r0 h0])
    have hrt2 : (if st.rt = .unset then RowKind.sequence else st.rt) ≠ .mapping := by
      by_cases h0 : st.rt = .unset <;> simp [h0, hrt]
    have hhead2 : ∀ r0, (st.rows2 ++ [r]).head? = some r0 → r0.length = L := by
      intro r0 h0
      cases hr2 : st.rows2 with
      | nil =>
        rw [hr2] at h0
        simp at h0
        rw [← h0]
        exact hr
      | cons x xs =>
        rw [hr2] at h0
        simp at h0
        rw [← h0]
        exact hhead x (by rw [hr2]; rfl)
    obtain ⟨rt2, hfold, hrt3⟩ := ih ⟨st.rows2 ++ [r], st.header,
        if st.rt = .unset then RowKind.sequence else st.rt⟩ hrt2
      (fun x hx => hall x (by simp [hx])) hhead2
    refine ⟨rt2, ?_, hrt3⟩
    show List.foldlM processRow st (Row.seq r :: rest.map Row.seq) = _
    rw [List.foldlM_cons, hstep]
    dsimp only at hfold
    show List.foldlM processRow ⟨st.rows2 ++ [r], st.header,
        if st.rt = .unset then RowKind.sequence else st.rt⟩ (rest.map Row.seq) = _
    rw [hfold]
    simp [List.append_assoc]

lemma tableLines_spec (rows2 : List (List Cell)) (L : Nat) (hL : 1 ≤ L)
    (hlen : ∀ r ∈ rows2, r.length = L)
    (hg : ∀ r ∈ rows2, ∀ c ∈ r, goodDisp (dispCell c)) :
    (tableLines rows2 L).length = rows2.length ∧
      ∀ line ∈ tableLines rows2 L, countSub sepStr line = L - 1 ∧ '\n' ∉ line := by
  constructor
  · simp [tableLines, dispRows]
  · intro line hline
    rw [tableLines, List.mem_map] at hline
    obtain ⟨dr, hdr, rfl⟩ := hline
    rw [dispRows, List.mem_map] at hdr
    obtain ⟨r, hr, rfl⟩ := hdr
    have hrL : r.length = L := hlen r hr
    have hdrL : (r.map dispCell).length = L := by simp [hrL]
    have hw : (columnWidths (dispRows rows2) L).length = (r.map dispCell).length := by
      rw [columnWidths_length, hdrL]
    have hner : (r.map dispCell) ≠ [] := by
      intro h0
      rw [h0] at hdrL
      simp at hdrL
      omega
    have hgr : ∀ c ∈ r.map dispCell, goodDisp c := by
      intro c hc
      rw [List.mem_map] at hc
      obtain ⟨c0, hc0, rfl⟩ := hc
      exact hg r hr c0 hc0
    have hspec := renderLine_spec _ _ hw hner hgr
    rw [hdrL] at hspec
    exact hspec

lemma pretty_table_none_eq (rows : List Row) :
    pretty_table rows none
      = (List.foldlM processRow ⟨[], [], .unset⟩ rows) >>=
          fun st => renderTable st.rows2 (!st.header.isEmpty) := rfl

lemma pretty_table_some_eq (rows : List Row) (h : List PyStr) (hne : h ≠ []) :
    pretty_table rows (some h)
      = (List.foldlM processRow ⟨[h.map Cell.str], h, .any⟩ rows) >>=
          fun st => renderTable st.rows2 (!st.header.isEmpty) := by
  cases h with
  | nil => exact absurd rfl hne
  | cons a t => rfl

/-! ## Claims about the encoder -/

/-- C1: the unknown-value hook draws at most `max_iterable_elements + 1`
items from a generic iterable; an iterable yielding exactly
`max_iterable_elements` items encodes to exactly those items in order; an
iterable yielding at least one more item fails with the size-limit error
naming the value's type and the configured limit, whose default is 10000. -/
theorem claim_C1_iterable_cap :
    (∀ (α : Type) (m : Nat) (it : PyIter α), (it.islice (m + 1)).length ≤ m + 1)
  ∧ (∀ (α : Type) (m : Nat) (tn : PyStr) (xs : List α), xs.length = m →
      DecentJSONEncoder.default m (PyObj.iterObj tn (PyIter.fin xs)) = .ok (JRes.jlist xs))
  ∧ (∀ (α : Type) (m : Nat) (tn : PyStr) (it : PyIter α), it.yieldsAtLeast (m + 1) = true →
      DecentJSONEncoder.default m (PyObj.iterObj tn it) = .error (EncErr.tooLarge tn m))
  ∧ defaultMaxIterableElements = 10000 := by
  refine ⟨fun α m it => islice_length_le it (m + 1), ?_, ?_, rfl⟩
  · intro α m tn xs hlen
    have htake : xs.take (m + 1) = xs := List.take_of_length_le (by omega)
    simp [DecentJSONEncoder.default, PyIter.islice, htake, hlen]
  · intro α m tn it h
    have hlen := islice_length_of_atLeast it (m + 1) h
    simp [DecentJSONEncoder.default, hlen]

theorem claim_C1_iterable_cap_witness :
    DecentJSONEncoder.default 2 (PyObj.iterObj ("gen").data (PyIter.fin [0, 1]))
      = .ok (JRes.jlist [0, 1])
  ∧ DecentJSONEncoder.default 1 (PyObj.iterObj ("gen").data (PyIter.fin ([5, 6] : List Nat)))
      = .error (EncErr.tooLarge ("gen").data 1) :=
  ⟨claim_C1_iterable_cap.2.1 Nat 2 (("gen").data) [0, 1] (by decide),
   claim_C1_iterable_cap.2.2.1 Nat 1 (("gen").data) (PyIter.fin [5, 6]) (by decide)⟩

/-- C8: the hook converts a `Decimal` or `Rational` to a float (the exact
value, within this embedding), a date to the ISO-8601 string of the
corresponding midnight datetime, and a time to its ISO-8601 string; in
particular `Decimal('0.123')` encodes to the float value `0.123`, the date
2001-02-03 to `"2001-02-03T00:00:00"`, and the time 10:11:12 to
`"10:11:12"`. -/
theorem claim_C8_conversions :
    (∀ (m : Nat) (q : Rat), DecentJSONEncoder.default (α := Nat) m (PyObj.decimalV q)
      = .ok (.jfloat (pyFloat q)))
  ∧ (∀ (m : Nat) (q : Rat), DecentJSONEncoder.default (α := Nat) m (PyObj.rationalV q)
      = .ok (.jfloat (pyFloat q)))
  ∧ (∀ (m y mo d : Nat), DecentJSONEncoder.default (α := Nat) m
      (PyObj.dateLike (PyDateLike.dateOnly y mo d))
      = .ok (.jstr (PyDatetime.isoformat ⟨y, mo, d, 0, 0, 0⟩)))
  ∧ (∀ (m h mi s : Nat), DecentJSONEncoder.default (α := Nat) m (PyObj.timeV h mi s)
      = .ok (.jstr (timeIsoformat h mi s)))
  ∧ DecentJSONEncoder.default (α := Nat) defaultMaxIterableElements
      (PyObj.decimalV (123 / 1000)) = .ok (.jfloat (123 / 1000))
  ∧ DecentJSONEncoder.default (α := Nat) defaultMaxIterableElements
      (PyObj.dateLike (PyDateLike.dateOnly 2001 2 3))
      = .ok (.jstr ("2001-02-03T00:00:00").data)
  ∧ DecentJSONEncoder.default (α := Nat) defaultMaxIterableElements
      (PyObj.timeV 10 11 12) = .ok (.jstr ("10:11:12").data) :=
  ⟨fun _ _ => rfl, fun _ _ => rfl, fun _ _ _ _ => rfl, fun _ _ _ _ => rfl,
   rfl, by decide, by decide⟩

/-! ## Claims about the dictionary-error helpers -/

/-- C5: every header key is looked up in a mapping/record row in header
order; when all keys are present the row's values come back in header
order, and the first missing header key fails with the `KeyError` carrying
the attempted key and the (string form of the) sorted list of the row's
actual keys. -/
theorem claim_C5_key_lookup :
    (∀ (d : List (PyStr × Cell)) (key : PyStr), alookup d key = none →
      helpful_error_dict_get d key = .error (.keyError (helpfulDictMsg d key)))
  ∧ (∀ (d : List (PyStr × Cell)) (key : PyStr), helpfulDictMsg d key
      = ("Tried to access ").data ++ pyRepr key ++ (", only keys are: ").data
        ++ List.take 1000 (pyListStr (sortStrs (keysOf d))))
  ∧ (∀ (st : TState) (d : List (PyStr × Cell)),
      (st.rt = .unset ∨ st.rt = .mapping ∨ st.rt = .any) → st.header ≠ [] →
      (∀ k ∈ st.header, alookup d k ≠ none) →
      handle_dict st d = .ok (⟨st.rows2, st.header, if st.rt = .unset then .mapping else st.rt⟩,
        st.header.map (fun k => (alookup d k).getD (Cell.str []))))
  ∧ (∀ (st : TState) (d : List (PyStr × Cell)) (pre : List PyStr) (key : PyStr)
      (post : List PyStr),
      (st.rt = .unset ∨ st.rt = .mapping ∨ st.rt = .any) →
      st.header = pre ++ key :: post →
      (∀ k ∈ pre, alookup d k ≠ none) → alookup d key = none →
      handle_dict st d = .error (.keyError (helpfulDictMsg d key)))
  ∧ pretty_table [Row.map [(('a' :: []), Cell.int 1), (('b' :: []), Cell.int 2)]]
      (some [('c' :: []), ('d' :: [])])
      = .error (.keyError (("Tried to access ").data ++ [quoteChar, 'c', quoteChar]
          ++ (", only keys are: [").data ++ [quoteChar, 'a', quoteChar]
          ++ (", ").data ++ [quoteChar, 'b', quoteChar] ++ (']' :: []))) := by
  refine ⟨?_, fun d key => rfl, ?_, ?_, by decide⟩
  · intro d key hk
    simp [helpful_error_dict_get, hk, _helpful_dict_error]
  · intro st d hrt hhdr hall
    simp [handle_dict, require_type_ok st.rt .mapping hrt, hhdr,
      lookupRow_ok d st.header hall]
    rfl
  · intro st d pre key post hrt hhdr hpre hk
    have hne : st.header ≠ [] := by simp [hhdr]
    simp [handle_dict, require_type_ok st.rt .mapping hrt, hne, hhdr,
      lookupRow_err d pre key post hpre hk, _helpful_dict_error]
    rfl

theorem claim_C5_key_lookup_witness :
    handle_dict ⟨[[Cell.str ('c' :: []), Cell.str ('d' :: [])]], [('c' :: []), ('d' :: [])],
        RowKind.any⟩ [(('a' :: []), Cell.int 1), (('b' :: []), Cell.int 2)]
      = .error (.keyError (helpfulDictMsg [(('a' :: []), Cell.int 1), (('b' :: []), Cell.int 2)]
          ('c' :: []))) :=
  claim_C5_key_lookup.2.2.2.1
    ⟨[[Cell.str ('c' :: []), Cell.str ('d' :: [])]], [('c' :: []), ('d' :: [])], RowKind.any⟩
    [(('a' :: []), Cell.int 1), (('b' :: []), Cell.int 2)]
    [] ('c' :: []) [('d' :: [])] (Or.inr (Or.inr rfl)) rfl (by simp) (by decide)

/-- A 1100-character key, long enough to overflow the 1000-character cap of
the helpful `KeyError` message. -/
def bigKey : PyStr := List.replicate 1100 'a'

/-- C10: every `KeyError` message produced by `_helpful_dict_error` (hence
by the table formatter's key lookups) truncates the string form of the
sorted key list to its first 1000 characters, so a sufficiently long key
list is reported incompletely: a single 1100-character key has a
1104-character list form, of which only 1000 characters survive in the
message (whose total length is 16 + 3 + 17 + 1000 = 1036). -/
theorem claim_C10_truncation :
    (∀ (d : List (PyStr × Cell)) (key : PyStr),
      _helpful_dict_error d key = .keyError (("Tried to access ").data ++ pyRepr key
        ++ (", only keys are: ").data ++ List.take 1000 (pyListStr (sortStrs (keysOf d)))))
  ∧ sortStrs (keysOf [(bigKey, Cell.int 0)]) = [bigKey]
  ∧ (pyListStr [bigKey]).length = 1104
  ∧ (List.take 1000 (pyListStr [bigKey])).length = 1000
  ∧ (helpfulDictMsg [(bigKey, Cell.int 0)] ('x' :: [])).length = 1036 := by
  have hlen : bigKey.length = 1100 := by
    show (List.replicate 1100 'a').length = 1100
    rw [List.length_replicate]
  have hpl : pyListStr [bigKey] = ('[' :: pyRepr bigKey) ++ (']' :: []) := rfl
  have hc : (pyListStr [bigKey]).length = 1104 := by
    rw [hpl]
    simp only [pyRepr, List.length_append, List.length_cons]
    rw [hlen]
    decide
  have h1 : (("Tried to access ").data).length = 16 := by decide
  have h2 : (pyRepr ('x' :: [])).length = 3 := by decide
  have h3 : ((", only keys are: ").data).length = 17 := by decide
  refine ⟨fun d key => rfl, rfl, hc, ?_, ?_⟩
  · rw [List.length_take, hc]
    decide
  · have e : helpfulDictMsg [(bigKey, Cell.int 0)] ('x' :: [])
        = ("Tried to access ").data ++ pyRepr ('x' :: []) ++ (", only keys are: ").data
          ++ List.take 1000 (pyListStr [bigKey]) := rfl
    rw [e]
    simp only [List.length_append, List.length_take]
    rw [h1, h2, h3, hc]
    decide

/-! ## Claims about `pretty_table` -/

/-- C9: `pretty_table` on an empty row collection with no header fails with
the uncaught indexing error from `rows[0]`; with a (nonempty) header and no
rows it succeeds and returns just the rendered header line followed by the
dash separator line. -/
theorem claim_C9_empty_rows :
    pretty_table [] none = .error .indexError
  ∧ ∀ (h : List PyStr), h ≠ [] →
      pretty_table [] (some h)
        = .ok (renderLine (columnWidths [h] h.length) h ++ '\n' ::
            List.replicate (renderLine (columnWidths [h] h.length) h).length '-') := by
  refine ⟨by decide, ?_⟩
  intro h hne
  have hmap : ∀ (l : List PyStr), (l.map Cell.str).map dispCell = l := by
    intro l
    induction l with
    | nil => rfl
    | cons a t ih => simp [dispCell, ih]
  have hemp : h.isEmpty = false := by
    cases h with
    | nil => exact absurd rfl hne
    | cons a t => rfl
  simp [pretty_table, hne, renderTable, hmap, hemp, joinSep, tableLines, dispRows, withDash]

theorem claim_C9_empty_rows_witness :
    pretty_table [] (some [('a' :: 'b' :: [])])
      = .ok (renderLine (columnWidths [[('a' :: 'b' :: [])]] ([('a' :: 'b' :: [])] : List PyStr).length)
            [('a' :: 'b' :: [])] ++ '\n' ::
          List.replicate (renderLine (columnWidths [[('a' :: 'b' :: [])]]
            ([('a' :: 'b' :: [])] : List PyStr).length) [('a' :: 'b' :: [])]).length '-') :=
  claim_C9_empty_rows.2 [('a' :: 'b' :: [])] (by decide)

/-- C2 (counterexample): with a header supplied, a one-row sequence table
renders three text lines — the header line, the dash separator line, and the
row — not `len(rows) + 1 = 2` lines as the claim states. -/
theorem claim_C2_counterexample :
    pretty_table [Row.seq [Cell.int 1, Cell.int 2]] (some [('a' :: []), ('b' :: [])])
      = .ok (("a | b\n-----\n1 | 2").data)
  ∧ (lineSplit (("a | b\n-----\n1 | 2").data)).length = 3
  ∧ (3 : Nat) ≠ [Row.seq [Cell.int 1, Cell.int 2]].length + 1 :=
  ⟨by decide, by decide, by decide⟩

/-- C2 (amended): for rows that are all sequences of one common length
`L ≥ 1` whose cell display strings are nonempty, contain no bar or newline
character, and neither start nor end in whitespace: with no header (and at
least one row) the output has exactly `len(rows)` lines, each containing
exactly `L - 1` occurrences of `" | "`; with a header of length `L` (of
equally well-behaved column names) the output has exactly `len(rows) + 2`
lines — the header line, a dash separator line (containing no `" | "`), and
the data lines — and every line except the dash line contains exactly
`L - 1` occurrences of `" | "`. -/
theorem claim_C2_amended :
    (∀ (L : Nat) (rows : List (List Cell)), 1 ≤ L → rows ≠ [] →
      (∀ r ∈ rows, r.length = L) →
      (∀ r ∈ rows, ∀ c ∈ r, goodDisp (dispCell c)) →
      ∃ out, pretty_table (rows.map Row.seq) none = .ok out ∧
        (lineSplit out).length = rows.length ∧
        ∀ line ∈ lineSplit out, countSub sepStr line = L - 1)
  ∧ (∀ (L : Nat) (rows : List (List Cell)) (h : List PyStr), 1 ≤ L →
      h.length = L → (∀ k ∈ h, goodDisp k) →
      (∀ r ∈ rows, r.length = L) →
      (∀ r ∈ rows, ∀ c ∈ r, goodDisp (dispCell c)) →
      ∃ out l0 ls, pretty_table (rows.map Row.seq) (some h) = .ok out ∧
        lineSplit out = l0 :: List.replicate l0.length '-' :: ls ∧
        (lineSplit out).length = rows.length + 2 ∧
        countSub sepStr (List.replicate l0.length '-') = 0 ∧
        ∀ line ∈ l0 :: ls, countSub sepStr line = L - 1) := by
  constructor
  · intro L rows hL hne hlen hg
    obtain ⟨r0, rest, rfl⟩ : ∃ r0 rest, rows = r0 :: rest := by
      cases rows with
      | nil => exact absurd rfl hne
      | cons a t => exact ⟨a, t, rfl⟩
    obtain ⟨rt2, hfold, -⟩ := foldl_seq_rows L (r0 :: rest) ⟨[], [], .unset⟩
      (by simp) hlen (fun r0' h0 => Option.noConfusion h0)
    have hspec := tableLines_spec (r0 :: rest) L hL hlen hg
    have hlinesne : tableLines (r0 :: rest) L ≠ [] := by
      intro h0
      have := hspec.1
      rw [h0] at this
      simp at this
    have hnl : ∀ p ∈ tableLines (r0 :: rest) L, '\n' ∉ p :=
      fun p hp => (hspec.2 p hp).2
    have hpt : pretty_table ((r0 :: rest).map Row.seq) none
        = .ok (joinSep ['\n'] (tableLines (r0 :: rest) L)) := by
      rw [pretty_table_none_eq, hfold]
      show renderTable (r0 :: rest) false = _
      rw [renderTable_ok r0 rest false
        (fun r hr => by rw [hlen r hr, hlen r0 (by simp)])]
      rw [hlen r0 (by simp)]
      simp [withDash]
    refine ⟨_, hpt, ?_, ?_⟩
    · rw [lineSplit_joinSep _ hlinesne hnl, hspec.1]
    · intro line hl
      rw [lineSplit_joinSep _ hlinesne hnl] at hl
      exact (hspec.2 line hl).1
  · intro L rows h hL hhlen hgh hlen hg
    have hne : h ≠ [] := by
      intro h0
      rw [h0] at hhlen
      simp at hhlen
      omega
    have hemp : (!h.isEmpty) = true := by
      cases h with
      | nil => exact absurd rfl hne
      | cons a t => rfl
    have hhdrlen : (h.map Cell.str).length = L := by simp [hhlen]
    have hlenL : ∀ r ∈ ((h.map Cell.str) :: rows : List (List Cell)), r.length = L := by
      intro r hr
      rcases List.mem_cons.mp hr with h1 | h1
      · rw [h1]
        exact hhdrlen
      · exact hlen r h1
    have hgL : ∀ r ∈ ((h.map Cell.str) :: rows : List (List Cell)),
        ∀ c ∈ r, goodDisp (dispCell c) := by
      intro r hr c hc
      rcases List.mem_cons.mp hr with h1 | h1
      · subst h1
        rw [List.mem_map] at hc
        obtain ⟨k, hk, rfl⟩ := hc
        show goodDisp k
        exact hgh k hk
      · exact hg r h1 c hc
    obtain ⟨rt2, hfold, -⟩ := foldl_seq_rows L rows ⟨[h.map Cell.str], h, .any⟩
      (by simp) hlen (by
        intro r0 h0
        simp at h0
        rw [← h0]
        exact hhdrlen)
    have hspec := tableLines_spec ((h.map Cell.str) :: rows) L hL hlenL hgL
    obtain ⟨l0, ls, hls⟩ : ∃ l0 ls, tableLines ((h.map Cell.str) :: rows) L = l0 :: ls := by
      cases h0 : tableLines ((h.map Cell.str) :: rows) L with
      | nil =>
        have := hspec.1
        rw [h0] at this
        simp at this
      | cons x t => exact ⟨x, t, rfl⟩
    have hlsline : ∀ line ∈ l0 :: ls, countSub sepStr line = L - 1 ∧ '\n' ∉ line := by
      intro line hl
      exact hspec.2 line (by rw [hls]; exact hl)
    have hdashnl : '\n' ∉ List.replicate l0.length '-' := by
      intro h0
      have := List.eq_of_mem_replicate h0
      exact absurd this (by decide)
    have hdashbar : countSub sepStr (List.replicate l0.length '-') = 0 := by
      apply countSub_no_bar
      intro h0
      have := List.eq_of_mem_replicate h0
      exact absurd this (by decide)
    have hpt : pretty_table (rows.map Row.seq) (some h)
        = .ok (joinSep ['\n'] (l0 :: List.replicate l0.length '-' :: ls)) := by
      rw [pretty_table_some_eq _ h hne, hfold]
      show renderTable ((h.map Cell.str) :: rows) (!h.isEmpty) = _
      rw [hemp, renderTable_ok (h.map Cell.str) rows true
        (fun r hr => by rw [hlenL r hr, hhdrlen])]
      rw [hhdrlen, hls]
      simp [withDash]
    have hsplit : lineSplit (joinSep ['\n'] (l0 :: List.replicate l0.length '-' :: ls))
        = l0 :: List.replicate l0.length '-' :: ls := by
      apply lineSplit_joinSep _ (by simp)
      intro p hp
      rcases List.mem_cons.mp hp with h1 | h1
      · subst h1
        exact (hlsline p (by simp)).2
      rcases List.mem_cons.mp h1 with h2 | h2
      · subst h2
        exact hdashnl
      · exact (hlsline p (by simp [h2])).2
    refine ⟨_, l0, ls, hpt, hsplit, ?_, hdashbar, fun line hl => (hlsline line hl).1⟩
    rw [hsplit]
    have hlines : (l0 :: ls).length = rows.length + 1 := by
      rw [← hls, hspec.1]
      simp
    simp at hlines
    simp [hlines]

theorem claim_C2_amended_witness :
    ∃ out, pretty_table ([[Cell.int 1, Cell.int 2]].map Row.seq) none = .ok out ∧
      (lineSplit out).length = [[Cell.int 1, Cell.int 2]].length ∧
      ∀ line ∈ lineSplit out, countSub sepStr line = 2 - 1 :=
  claim_C2_amended.1 2 [[Cell.int 1, Cell.int 2]] (by decide) (by decide)
    (by decide) (by decide)

lemma processRow_seq_err (st : TState) (cells r0 : List Cell) (rs : List (List Cell))
    (hrt : st.rt ≠ .mapping) (hr : st.rows2 = r0 :: rs) (hne : cells.length ≠ r0.length) :
    processRow st (.seq cells)
      = .error (.lengthMismatch r0.length r0 cells.length cells) := by
  obtain ⟨rows2, header, rt⟩ := st
  simp only at hrt hr ⊢
  subst hr
  simp only [processRow]
  rw [require_type_seq rt hrt]
  simp [hne]
  rfl

/-- C4 (counterexample): with a header, the length check compares against the
header row stored at the front of the internal row list, so the error cites
the header's contents — here `['a', 'b', 'c']` — even though the first
sequence row seen was `[1, 2, 3]`. -/
theorem claim_C4_counterexample :
    pretty_table [Row.seq [Cell.int 1, Cell.int 2, Cell.int 3],
        Row.seq [Cell.int 4, Cell.int 5]]
      (some [('a' :: []), ('b' :: []), ('c' :: [])])
      = .error (.lengthMismatch 3
          [Cell.str ('a' :: []), Cell.str ('b' :: []), Cell.str ('c' :: [])]
          2 [Cell.int 4, Cell.int 5])
  ∧ [Cell.str ('a' :: []), Cell.str ('b' :: []), Cell.str ('c' :: [])]
      ≠ [Cell.int 1, Cell.int 2, Cell.int 3] :=
  ⟨by decide, by decide⟩

/-- C4 (amended): a sequence row whose length differs from the first entry of
the internal row list fails with the length-mismatch error carrying both
lengths and both row contents; with no header that first entry is the first
sequence row seen (so the claim's example `[1,2]` then `[3,4,5]` fails citing
2 and 3 and both rows), while with a header it is the header row itself. -/
theorem claim_C4_amended :
    (∀ (r0 r : List Cell) (pre post : List (List Cell)),
      (∀ p ∈ pre, p.length = r0.length) → r.length ≠ r0.length →
      pretty_table ((r0 :: (pre ++ r :: post)).map Row.seq) none
        = .error (.lengthMismatch r0.length r0 r.length r))
  ∧ (∀ (h : List PyStr) (r : List Cell) (pre post : List (List Cell)), h ≠ [] →
      (∀ p ∈ pre, p.length = h.length) → r.length ≠ h.length →
      pretty_table ((pre ++ r :: post).map Row.seq) (some h)
        = .error (.lengthMismatch (h.map Cell.str).length (h.map Cell.str) r.length r))
  ∧ pretty_table [Row.seq [Cell.int 1, Cell.int 2],
      Row.seq [Cell.int 3, Cell.int 4, Cell.int 5]] none
      = .error (.lengthMismatch 2 [Cell.int 1, Cell.int 2] 3
          [Cell.int 3, Cell.int 4, Cell.int 5]) := by
  refine ⟨?_, ?_, by decide⟩
  · intro r0 r pre post hpre hne
    rw [pretty_table_none_eq]
    rw [List.map_cons, List.foldlM_cons]
    have h1 : processRow ⟨[], [], .unset⟩ (.seq r0) = .ok ⟨[r0], [], .sequence⟩ := by
      have h0 := processRow_seq_ok ⟨[], [], .unset⟩ r0 (by simp)
        (fun x hx => Option.noConfusion hx)
      simpa using h0
    rw [h1]
    show (List.foldlM processRow ⟨[r0], [], .sequence⟩
        ((pre ++ r :: post).map Row.seq)) >>= _ = _
    rw [List.map_append, List.foldlM_append]
    obtain ⟨rt2, hfold, hrt2⟩ := foldl_seq_rows r0.length pre ⟨[r0], [], .sequence⟩
      (by simp) hpre (by
        intro x hx
        simp at hx
        rw [← hx])
    rw [hfold]
    show (List.foldlM processRow ⟨[r0] ++ pre, [], rt2⟩ ((r :: post).map Row.seq)) >>= _ = _
    rw [List.map_cons, List.foldlM_cons]
    rw [processRow_seq_err ⟨[r0] ++ pre, [], rt2⟩ r r0 pre hrt2 (by simp) hne]
    rfl
  · intro h r pre post hne hpre hlen
    rw [pretty_table_some_eq _ h hne, List.map_append, List.foldlM_append]
    obtain ⟨rt2, hfold, hrt2⟩ := foldl_seq_rows h.length pre
      ⟨[h.map Cell.str], h, .any⟩ (by simp) hpre (by
        intro x hx
        simp at hx
        rw [← hx]
        simp)
    rw [hfold]
    show (List.foldlM processRow ⟨[h.map Cell.str] ++ pre, h, rt2⟩
        ((r :: post).map Row.seq)) >>= _ = _
    rw [List.map_cons, List.foldlM_cons]
    rw [processRow_seq_err ⟨[h.map Cell.str] ++ pre, h, rt2⟩ r (h.map Cell.str) pre
      hrt2 (by simp) (by simpa using hlen)]
    rfl

theorem claim_C4_amended_witness :
    pretty_table (([Cell.int 1, Cell.int 2] :
        List Cell) :: ([] ++ [Cell.int 3, Cell.int 4, Cell.int 5] :: []) |>.map Row.seq) none
      = .error (.lengthMismatch ([Cell.int 1, Cell.int 2] : List Cell).length
          [Cell.int 1, Cell.int 2] ([Cell.int 3, Cell.int 4, Cell.int 5] : List Cell).length
          [Cell.int 3, Cell.int 4, Cell.int 5]) :=
  claim_C4_amended.1 [Cell.int 1, Cell.int 2] [Cell.int 3, Cell.int 4, Cell.int 5] [] []
    (by simp) (by decide)

lemma except_bind_ok {ε α β : Type} (a : α) (f : α → Except ε β) :
    (Except.ok a >>= f) = f a := rfl

lemma except_bind_err {ε α β : Type} (e : ε) (f : α → Except ε β) :
    ((Except.error e : Except ε α) >>= f) = Except.error e := rfl

lemma require_type_inv (rt t rt2 : RowKind) (h : require_type rt t = .ok rt2) :
    (rt = .unset ∨ rt = t ∨ rt = .any) ∧ rt2 = (if rt = .unset then t else rt) := by
  by_cases h1 : rt ≠ .unset ∧ rt ≠ t ∧ rt ≠ .any
  · rw [require_type, if_pos h1] at h
    exact Except.noConfusion h
  · have h2 : rt = .unset ∨ rt = t ∨ rt = .any := by
      rcases not_and_or.mp h1 with h3 | h3
      · exact Or.inl (not_not.mp h3)
      rcases not_and_or.mp h3 with h4 | h4
      · exact Or.inr (Or.inl (not_not.mp h4))
      · exact Or.inr (Or.inr (not_not.mp h4))
    refine ⟨h2, ?_⟩
    rw [require_type, if_neg h1] at h
    by_cases h5 : rt = .unset
    · rw [if_pos h5] at h
      rw [if_pos h5]
      injection h with h6
      exact h6.symm
    · rw [if_neg h5] at h
      rw [if_neg h5]
      injection h with h6
      exact h6.symm

lemma handle_dict_inv (st : TState) (d : List (PyStr × Cell)) (st2 : TState)
    (row : List Cell) (h : handle_dict st d = .ok (st2, row)) :
    (st.rt = .unset ∨ st.rt = .mapping ∨ st.rt = .any) ∧
      st2.rt = (if st.rt = .unset then .mapping else st.rt) := by
  unfold handle_dict at h
  cases hreq : require_type st.rt .mapping with
  | error e =>
    rw [hreq, except_bind_err] at h
    exact Except.noConfusion h
  | ok rt2 =>
    obtain ⟨hd, hval⟩ := require_type_inv _ _ _ hreq
    rw [hreq, except_bind_ok] at h
    dsimp only at h
    refine ⟨hd, ?_⟩
    cases hlr : lookupRow d (if st.header = [] then sortStrs (keysOf d) else st.header) with
    | error e =>
      rw [hlr, except_bind_err] at h
      exact Except.noConfusion h
    | ok vals =>
      rw [hlr, except_bind_ok] at h
      injection h with h2
      injection h2 with h3 h4
      rw [← h3]
      exact hval

lemma processRow_seq_inv (st : TState) (cells : List Cell) (st1 : TState)
    (h : processRow st (.seq cells) = .ok st1) :
    (st.rt = .unset ∨ st.rt = .sequence ∨ st.rt = .any) ∧
      st1.rt = (if st.rt = .unset then .sequence else st.rt) := by
  simp only [processRow] at h
  cases hreq : require_type st.rt .sequence with
  | error e =>
    rw [hreq, except_bind_err] at h
    exact Except.noConfusion h
  | ok rt2 =>
    obtain ⟨hd, hval⟩ := require_type_inv _ _ _ hreq
    rw [hreq, except_bind_ok] at h
    refine ⟨hd, ?_⟩
    cases hr : st.rows2 with
    | nil =>
      rw [hr] at h
      injection h with h2
      rw [← h2]
      exact hval
    | cons r0 rs =>
      rw [hr] at h
      dsimp only at h
      by_cases hlen : cells.length ≠ r0.length
      · rw [if_pos hlen] at h
        exact Except.noConfusion h
      · rw [if_neg hlen] at h
        injection h with h2
        rw [← h2]
        exact hval

lemma processRow_map_inv (st : TState) (d : List (PyStr × Cell)) (st1 : TState)
    (h : processRow st (.map d) = .ok st1) :
    (st.rt = .unset ∨ st.rt = .mapping ∨ st.rt = .any) ∧
      st1.rt = (if st.rt = .unset then .mapping else st.rt) := by
  simp only [processRow] at h
  cases hhd : handle_dict st d with
  | error e =>
    rw [hhd, except_bind_err] at h
    exact Except.noConfusion h
  | ok p =>
    obtain ⟨stx, row⟩ := p
    have hinv := handle_dict_inv st d stx row hhd
    rw [hhd, except_bind_ok] at h
    refine ⟨hinv.1, ?_⟩
    injection h with h2
    rw [← h2]
    exact hinv.2

lemma processRow_obj_inv (st : TState) (d : List (PyStr × Cell)) (st1 : TState)
    (h : processRow st (.obj d) = .ok st1) :
    (st.rt = .unset ∨ st.rt = .mapping ∨ st.rt = .any) ∧
      st1.rt = (if st.rt = .unset then .mapping else st.rt) := by
  simp only [processRow] at h
  cases hhd : handle_dict st d with
  | error e =>
    rw [hhd, except_bind_err] at h
    exact Except.noConfusion h
  | ok p =>
    obtain ⟨stx, row⟩ := p
    have hinv := handle_dict_inv st d stx row hhd
    rw [hhd, except_bind_ok] at h
    refine ⟨hinv.1, ?_⟩
    injection h with h2
    rw [← h2]
    exact hinv.2

lemma fold_ok_kinds : ∀ (rows : List Row) (st st2 : TState),
    List.foldlM processRow st rows = .ok st2 →
    (st.rt = .sequence → ∀ r ∈ rows, r.isSeq = true) ∧
    (st.rt = .mapping → ∀ r ∈ rows, r.isSeq = false) ∧
    (st.rt = .unset → (∀ r ∈ rows, r.isSeq = true) ∨ (∀ r ∈ rows, r.isSeq = false)) := by
  intro rows
  induction rows with
  | nil =>
    intro st st2 h
    exact ⟨fun _ r hr => absurd hr (by simp), fun _ r hr => absurd hr (by simp),
      fun _ => Or.inl (fun r hr => absurd hr (by simp))⟩
  | cons r rest ih =>
    intro st st2 h
    rw [List.foldlM_cons] at h
    cases hpr : processRow st r with
    | error e =>
      rw [hpr, except_bind_err] at h
      exact Except.noConfusion h
    | ok st1 =>
      rw [hpr, except_bind_ok] at h
      have IH := ih st1 st2 h
      cases r with
      | seq cells =>
        obtain ⟨hdisj, hrt1⟩ := processRow_seq_inv st cells st1 hpr
        refine ⟨?_, ?_, ?_⟩
        · intro hseq r hr
          rcases List.mem_cons.mp hr with h1 | h1
          · rw [h1]
            rfl
          · have hst1 : st1.rt = .sequence := by
              rw [hrt1]
              simp [hseq]
            exact IH.1 hst1 r h1
        · intro hmap
          rcases hdisj with h1 | h1 | h1 <;> rw [hmap] at h1 <;> exact RowKind.noConfusion h1
        · intro hunset
          left
          intro r hr
          rcases List.mem_cons.mp hr with h1 | h1
          · rw [h1]
            rfl
          · have hst1 : st1.rt = .sequence := by
              rw [hrt1]
              simp [hunset]
            exact IH.1 hst1 r h1
      | map d =>
        obtain ⟨hdisj, hrt1⟩ := processRow_map_inv st d st1 hpr
        refine ⟨?_, ?_, ?_⟩
        · intro hseq
          rcases hdisj with h1 | h1 | h1 <;> rw [hseq] at h1 <;> exact RowKind.noConfusion h1
        · intro hmap r hr
          rcases List.mem_cons.mp hr with h1 | h1
          · rw [h1]
            rfl
          · have hst1 : st1.rt = .mapping := by
              rw [hrt1]
              simp [hmap]
            exact IH.2.1 hst1 r h1
        · intro hunset
          right
          intro r hr
          rcases List.mem_cons.mp hr with h1 | h1
          · rw [h1]
            rfl
          · have hst1 : st1.rt = .mapping := by
              rw [hrt1]
              simp [hunset]
            exact IH.2.1 hst1 r h1
      | obj d =>
        obtain ⟨hdisj, hrt1⟩ := processRow_obj_inv st d st1 hpr
        refine ⟨?_, ?_, ?_⟩
        · intro hseq
          rcases hdisj with h1 | h1 | h1 <;> rw [hseq] at h1 <;> exact RowKind.noConfusion h1
        · intro hmap r hr
          rcases List.mem_cons.mp hr with h1 | h1
          · rw [h1]
            rfl
          · have hst1 : st1.rt = .mapping := by
              rw [hrt1]
              simp [hmap]
            exact IH.2.1 hst1 r h1
        · intro hunset
          right
          intro r hr
          rcases List.mem_cons.mp hr with h1 | h1
          · rw [h1]
            rfl
          · have hst1 : st1.rt = .mapping := by
              rw [hrt1]
              simp [hunset]
            exact IH.2.1 hst1 r h1

lemma lookupRow_error_shape (d : List (PyStr × Cell)) :
    ∀ (hdr : List PyStr) (e : TableError), lookupRow d hdr = .error e →
      ∃ msg, e = .keyError msg := by
  intro hdr
  induction hdr with
  | nil =>
    intro e h
    exact Except.noConfusion h
  | cons k t ih =>
    intro e h
    rw [lookupRow] at h
    cases hk : alookup d k with
    | none =>
      rw [helpful_error_dict_get, hk] at h
      rw [except_bind_err] at h
      injection h with h2
      exact ⟨helpfulDictMsg d k, by rw [← h2]; rfl⟩
    | some v =>
      rw [helpful_error_dict_get, hk, except_bind_ok] at h
      cases hlt : lookupRow d t with
      | error e2 =>
        rw [hlt, except_bind_err] at h
        injection h with h2
        rw [← h2]
        exact ih e2 hlt
      | ok vs =>
        rw [hlt, except_bind_ok] at h
        exact Except.noConfusion h

lemma handle_dict_any_err (st : TState) (d : List (PyStr × Cell)) (e : TableError)
    (hrt : st.rt = .any) (h : handle_dict st d = .error e) : ∃ msg, e = .keyError msg := by
  have hreq : require_type st.rt .mapping = .ok .any := by
    rw [hrt]
    simp [require_type]
  unfold handle_dict at h
  rw [hreq, except_bind_ok] at h
  dsimp only at h
  cases hlr : lookupRow d (if st.header = [] then sortStrs (keysOf d) else st.header) with
  | error e2 =>
    rw [hlr, except_bind_err] at h
    injection h with h2
    rw [← h2]
    exact lookupRow_error_shape d _ e2 hlr
  | ok vals =>
    rw [hlr, except_bind_ok] at h
    exact Except.noConfusion h

lemma processRow_any_no_mix (st : TState) (r : Row) (hrt : st.rt = .any) :
    processRow st r ≠ .error .mixError ∧
      (∀ st1, processRow st r = .ok st1 → st1.rt = .any) := by
  constructor
  · intro h
    cases r with
    | seq cells =>
      have hreq : require_type st.rt .sequence = .ok .any := by
        rw [hrt]
        simp [require_type]
      simp only [processRow, hreq, except_bind_ok] at h
      cases hr : st.rows2 with
      | nil =>
        rw [hr] at h
        exact Except.noConfusion h
      | cons r0 rs =>
        rw [hr] at h
        dsimp only at h
        by_cases hlen : cells.length ≠ r0.length
        · rw [if_pos hlen] at h
          injection h with h2
          exact TableError.noConfusion h2
        · rw [if_neg hlen] at h
          exact Except.noConfusion h
    | map d =>
      simp only [processRow] at h
      cases hhd : handle_dict st d with
      | error e =>
        rw [hhd, except_bind_err] at h
        injection h with h2
        obtain ⟨msg, hmsg⟩ := handle_dict_any_err st d e hrt hhd
        rw [hmsg] at h2
        exact TableError.noConfusion h2.symm
      | ok p =>
        rw [hhd, except_bind_ok] at h
        obtain ⟨stx, row⟩ := p
        exact Except.noConfusion h
    | obj d =>
      simp only [processRow] at h
      cases hhd : handle_dict st d with
      | error e =>
        rw [hhd, except_bind_err] at h
        injection h with h2
        obtain ⟨msg, hmsg⟩ := handle_dict_any_err st d e hrt hhd
        rw [hmsg] at h2
        exact TableError.noConfusion h2.symm
      | ok p =>
        rw [hhd, except_bind_ok] at h
        obtain ⟨stx, row⟩ := p
        exact Except.noConfusion h
  · intro st1 h
    cases r with
    | seq cells =>
      have hinv := processRow_seq_inv st cells st1 h
      rw [hinv.2, hrt]
      simp
    | map d =>
      have hinv := processRow_map_inv st d st1 h
      rw [hinv.2, hrt]
      simp
    | obj d =>
      have hinv := processRow_obj_inv st d st1 h
      rw [hinv.2, hrt]
      simp

lemma fold_any_no_mix : ∀ (rows : List Row) (st : TState), st.rt = .any →
    List.foldlM processRow st rows ≠ .error .mixError ∧
      (∀ st2, List.foldlM processRow st rows = .ok st2 → st2.rt = .any) := by
  intro rows
  induction rows with
  | nil =>
    intro st hrt
    constructor
    · rw [List.foldlM_nil]
      intro h
      exact Except.noConfusion h
    · intro st2 h
      rw [List.foldlM_nil] at h
      injection h with h2
      rw [← h2]
      exact hrt
  | cons r rest ih =>
    intro st hrt
    have hpr := processRow_any_no_mix st r hrt
    constructor
    · rw [List.foldlM_cons]
      cases hp : processRow st r with
      | error e =>
        rw [except_bind_err]
        intro h
        injection h with h2
        rw [h2] at hp
        exact hpr.1 hp
      | ok st1 =>
        rw [except_bind_ok]
        exact (ih st1 (hpr.2 st1 hp)).1
    · intro st2 h
      rw [List.foldlM_cons] at h
      cases hp : processRow st r with
      | error e =>
        rw [hp, except_bind_err] at h
        exact Except.noConfusion h
      | ok st1 =>
        rw [hp, except_bind_ok] at h
        exact (ih st1 (hpr.2 st1 hp)).2 st2 h

lemma renderTable_no_mix (rows2 : List (List Cell)) (hp : Bool) :
    renderTable rows2 hp ≠ .error .mixError := by
  intro h
  cases rows2 with
  | nil =>
    simp only [renderTable] at h
    injection h with h2
    exact TableError.noConfusion h2
  | cons r0 rest =>
    simp only [renderTable] at h
    split at h
    · injection h with h2
      exact TableError.noConfusion h2
    · exact Except.noConfusion h

/-- C3 (counterexample): an explicit header does not guarantee success for
mixed rows — here the mapping row lacks the header key `'a'`, so the call
fails with a `KeyError` despite the header. -/
theorem claim_C3_counterexample :
    pretty_table [Row.seq [Cell.int 1], Row.map [(('b' :: []), Cell.int 2)]]
      (some [('a' :: [])])
      = .error (.keyError (helpfulDictMsg [(('b' :: []), Cell.int 2)] ('a' :: [])))
  ∧ ∀ out, pretty_table [Row.seq [Cell.int 1], Row.map [(('b' :: []), Cell.int 2)]]
      (some [('a' :: [])]) ≠ .ok out := by
  have h1 : pretty_table [Row.seq [Cell.int 1], Row.map [(('b' :: []), Cell.int 2)]]
      (some [('a' :: [])])
      = .error (.keyError (helpfulDictMsg [(('b' :: []), Cell.int 2)] ('a' :: []))) := by
    decide
  refine ⟨h1, fun out h => ?_⟩
  rw [h1] at h
  exact Except.noConfusion h

/-- C3 (amended): mixing sequence rows with mapping/record rows and no
header always fails (with the usage error when the kind conflict is the
first failure reached — as in the doctest example — though an earlier
length-mismatch or key-lookup failure can preempt it); with an explicit
header the usage error can never be raised, and the doctest's mixed rows
succeed under the header `['b', 'a']` (success still requires every mapping
row to contain the header keys and sequence rows to match the header
length). -/
theorem claim_C3_amended :
    (∀ (rows : List Row), (∃ r ∈ rows, r.isSeq = true) → (∃ r ∈ rows, r.isSeq = false) →
      ∃ e, pretty_table rows none = .error e)
  ∧ (∀ (rows : List Row) (h : List PyStr), h ≠ [] →
      pretty_table rows (some h) ≠ .error .mixError)
  ∧ pretty_table [Row.map [(('a' :: []), Cell.int 1), (('b' :: []), Cell.int 2)],
      Row.obj [(('a' :: []), Cell.int 3), (('b' :: []), Cell.int 4)],
      Row.seq [Cell.int 5, Cell.int 6]] none = .error .mixError
  ∧ pretty_table [Row.map [(('a' :: []), Cell.int 1), (('b' :: []), Cell.int 2)],
      Row.obj [(('a' :: []), Cell.int 3), (('b' :: []), Cell.int 4)],
      Row.seq [Cell.int 5, Cell.int 6]] (some [('b' :: []), ('a' :: [])])
      = .ok (("b | a\n-----\n2 | 1\n4 | 3\n5 | 6").data) := by
  refine ⟨?_, ?_, by decide, by decide⟩
  · intro rows hseqEx hmapEx
    obtain ⟨rs, hrs, hseq⟩ := hseqEx
    obtain ⟨rm, hrm, hmap⟩ := hmapEx
    cases hres : pretty_table rows none with
    | error e => exact ⟨e, rfl⟩
    | ok out =>
      exfalso
      rw [pretty_table_none_eq] at hres
      cases hf : List.foldlM processRow ⟨[], [], .unset⟩ rows with
      | error e =>
        rw [hf, except_bind_err] at hres
        exact Except.noConfusion hres
      | ok st2 =>
        have hk := (fold_ok_kinds rows ⟨[], [], .unset⟩ st2 hf).2.2 rfl
        rcases hk with hall | hall
        · have h2 := hall rm hrm
          rw [hmap] at h2
          exact Bool.noConfusion h2
        · have h2 := hall rs hrs
          rw [hseq] at h2
          exact Bool.noConfusion h2
  · intro rows h hne hcontra
    rw [pretty_table_some_eq rows h hne] at hcontra
    cases hf : List.foldlM processRow ⟨[h.map Cell.str], h, .any⟩ rows with
    | error e =>
      rw [hf, except_bind_err] at hcontra
      injection hcontra with h2
      rw [h2] at hf
      exact (fold_any_no_mix rows ⟨[h.map Cell.str], h, .any⟩ rfl).1 hf
    | ok st2 =>
      rw [hf, except_bind_ok] at hcontra
      exact renderTable_no_mix st2.rows2 _ hcontra

theorem claim_C3_amended_witness :
    ∃ e, pretty_table [Row.seq [Cell.int 1], Row.map [(('b' :: []), Cell.int 2)]] none
      = .error e :=
  claim_C3_amended.1 [Row.seq [Cell.int 1], Row.map [(('b' :: []), Cell.int 2)]]
    ⟨Row.seq [Cell.int 1], by simp, rfl⟩
    ⟨Row.map [(('b' :: []), Cell.int 2)], by simp, rfl⟩

lemma mem_insertKey (x k : PyStr) (l : List PyStr) :
    x ∈ insertKey k l ↔ x = k ∨ x ∈ l := by
  induction l with
  | nil => simp [insertKey]
  | cons y ys ih =>
    simp only [insertKey]
    by_cases h : strLtB y k
    · simp [h, ih]
      tauto
    · simp [h, ih]

lemma mem_sortStrs (x : PyStr) (l : List PyStr) : x ∈ sortStrs l ↔ x ∈ l := by
  induction l with
  | nil => simp [sortStrs]
  | cons y ys ih => simp [sortStrs, mem_insertKey, ih]

lemma alookup_ne_none_of_mem : ∀ (d : List (PyStr × Cell)) (k : PyStr),
    k ∈ keysOf d → alookup d k ≠ none := by
  intro d
  induction d with
  | nil =>
    intro k h
    simp [keysOf] at h
  | cons p t ih =>
    intro k h
    obtain ⟨k2, v⟩ := p
    show alookup ((k2, v) :: t) k ≠ none
    by_cases he : k2 = k
    · simp [alookup, he]
    · simp only [alookup]
      simp only [he, if_false]
      apply ih
      have h2 : k ∈ k2 :: keysOf t := h
      rcases List.mem_cons.mp h2 with h1 | h1
      · exact absurd h1.symm he
      · exact h1

/-- The value row produced for a mapping row under the header `hdr`. -/
def rowVals (hdr : List PyStr) (d : List (PyStr × Cell)) : List Cell :=
  hdr.map (fun k => (alookup d k).getD (Cell.str []))

lemma handle_dict_ok_all (st : TState) (d : List (PyStr × Cell))
    (hrt : st.rt = .unset ∨ st.rt = .mapping ∨ st.rt = .any) (hhdr : st.header ≠ [])
    (hall : ∀ k ∈ st.header, alookup d k ≠ none) :
    handle_dict st d = .ok (⟨st.rows2, st.header,
      if st.rt = .unset then .mapping else st.rt⟩, rowVals st.header d) := by
  simp [handle_dict, require_type_ok st.rt .mapping hrt, hhdr,
    lookupRow_ok d st.header hall, rowVals]
  rfl

lemma handle_dict_derive (st : TState) (d : List (PyStr × Cell))
    (hrt : st.rt = .unset ∨ st.rt = .mapping ∨ st.rt = .any) (hhdr : st.header = []) :
    handle_dict st d = .ok (⟨(sortStrs (keysOf d)).map Cell.str :: st.rows2,
      sortStrs (keysOf d), if st.rt = .unset then .mapping else st.rt⟩,
      rowVals (sortStrs (keysOf d)) d) := by
  have hall : ∀ k ∈ sortStrs (keysOf d), alookup d k ≠ none := by
    intro k hk
    exact alookup_ne_none_of_mem d k ((mem_sortStrs k _).mp hk)
  simp [handle_dict, require_type_ok st.rt .mapping hrt, hhdr,
    lookupRow_ok d _ hall, rowVals]
  rfl

lemma processRow_map_ok (st : TState) (d : List (PyStr × Cell))
    (hrt : st.rt = .unset ∨ st.rt = .mapping ∨ st.rt = .any) (hhdr : st.header ≠ [])
    (hall : ∀ k ∈ st.header, alookup d k ≠ none) :
    processRow st (.map d) = .ok ⟨st.rows2 ++ [rowVals st.header d], st.header,
      if st.rt = .unset then .mapping else st.rt⟩ := by
  simp only [processRow]
  rw [handle_dict_ok_all st d hrt hhdr hall, except_bind_ok]

lemma fold_maps (hdr : List PyStr) :
    ∀ (ds : List (List (PyStr × Cell))) (st : TState),
      st.rt = .mapping → st.header = hdr → hdr ≠ [] →
      (∀ d ∈ ds, ∀ k ∈ hdr, alookup d k ≠ none) →
      List.foldlM processRow st (ds.map Row.map)
        = .ok ⟨st.rows2 ++ ds.map (rowVals hdr), hdr, .mapping⟩ := by
  intro ds
  induction ds with
  | nil =>
    intro st hrt hh hne hall
    obtain ⟨rows2, header, rt⟩ := st
    simp only at hrt hh
    subst hrt
    subst hh
    rw [List.map_nil, List.foldlM_nil]
    simp only [List.map_nil, List.append_nil]
    rfl
  | cons d rest ih =>
    intro st hrt hh hne hall
    rw [List.map_cons, List.foldlM_cons]
    have hstep := processRow_map_ok st d (Or.inr (Or.inl hrt))
      (by rw [hh]; exact hne) (by rw [hh]; exact hall d (by simp))
    rw [hstep, except_bind_ok]
    have hite : (if st.rt = .unset then RowKind.mapping else st.rt) = .mapping := by
      rw [hrt]
      simp
    have hrec := ih ⟨st.rows2 ++ [rowVals st.header d], st.header,
        if st.rt = .unset then RowKind.mapping else st.rt⟩ hite hh hne
      (fun d2 hd2 => hall d2 (by simp [hd2]))
    dsimp only at hrec
    rw [hrec, hh]
    simp [List.append_assoc]

/-- C6 (counterexample): a mapping row with an empty key set derives an
empty header, which stays falsy, so no dash separator line is inserted and
the header is re-derived per row — the output is two empty lines, not the
claimed header line, dash line, and data line. -/
theorem claim_C6_counterexample :
    pretty_table [Row.map []] none = .ok ('\n' :: [])
  ∧ lineSplit ('\n' :: []) = [[], []]
  ∧ (lineSplit ('\n' :: [])).length ≠ 1 + 2 :=
  ⟨by decide, by decide, by decide⟩

/-- C6 (amended): for a headerless call whose rows are all mappings with the
same (nonempty) key set, the header is derived by sorting the keys of the
first row ascending, every data row lists its values in that sorted key
order, rendering proceeds with the derived header marked present, and the
rendered output is the header line followed by the dash separator line (the
doctest example is reproduced exactly). -/
theorem claim_C6_sorted_header :
    pretty_table [Row.map [(('a' :: []), Cell.int 1), (('b' :: []), Cell.int 2)],
        Row.map [(('a' :: []), Cell.int 3), (('b' :: []), Cell.int 4)]] none
      = .ok (("a | b\n-----\n1 | 2\n3 | 4").data)
  ∧ (∀ (d0 : List (PyStr × Cell)) (ds : List (List (PyStr × Cell))),
      keysOf d0 ≠ [] →
      (∀ d ∈ ds, sortStrs (keysOf d) = sortStrs (keysOf d0)) →
      pretty_table (Row.map d0 :: ds.map Row.map) none
        = renderTable ((sortStrs (keysOf d0)).map Cell.str ::
            rowVals (sortStrs (keysOf d0)) d0 :: ds.map (rowVals (sortStrs (keysOf d0))))
            (!(sortStrs (keysOf d0)).isEmpty))
  ∧ (∀ (d0 : List (PyStr × Cell)) (ds : List (List (PyStr × Cell))),
      keysOf d0 ≠ [] →
      (∀ d ∈ ds, sortStrs (keysOf d) = sortStrs (keysOf d0)) →
      ∃ l0 ls, pretty_table (Row.map d0 :: ds.map Row.map) none
        = .ok (joinSep ['\n'] (l0 :: List.replicate l0.length '-' :: ls))) := by
  have hdrne : ∀ (d0 : List (PyStr × Cell)), keysOf d0 ≠ [] →
      sortStrs (keysOf d0) ≠ [] := by
    intro d0 hne h0
    obtain ⟨k, ks, hk⟩ : ∃ k ks, keysOf d0 = k :: ks := by
      cases hkk : keysOf d0 with
      | nil => exact absurd hkk hne
      | cons k ks => exact ⟨k, ks, rfl⟩
    have : k ∈ sortStrs (keysOf d0) := (mem_sortStrs k _).mpr (by rw [hk]; simp)
    rw [h0] at this
    simp at this
  have hmain : ∀ (d0 : List (PyStr × Cell)) (ds : List (List (PyStr × Cell))),
      keysOf d0 ≠ [] →
      (∀ d ∈ ds, sortStrs (keysOf d) = sortStrs (keysOf d0)) →
      pretty_table (Row.map d0 :: ds.map Row.map) none
        = renderTable ((sortStrs (keysOf d0)).map Cell.str ::
            rowVals (sortStrs (keysOf d0)) d0 :: ds.map (rowVals (sortStrs (keysOf d0))))
            (!(sortStrs (keysOf d0)).isEmpty) := by
    intro d0 ds hk0 hsame
    have hne := hdrne d0 hk0
    have hall : ∀ d ∈ ds, ∀ k ∈ sortStrs (keysOf d0), alookup d k ≠ none := by
      intro d hd k hk
      apply alookup_ne_none_of_mem
      apply (mem_sortStrs k _).mp
      rw [hsame d hd]
      exact hk
    rw [pretty_table_none_eq, List.foldlM_cons]
    have hstep : processRow ⟨[], [], .unset⟩ (.map d0)
        = .ok ⟨[(sortStrs (keysOf d0)).map Cell.str, rowVals (sortStrs (keysOf d0)) d0],
            sortStrs (keysOf d0), .mapping⟩ := by
      simp only [processRow]
      rw [handle_dict_derive ⟨[], [], .unset⟩ d0 (Or.inl rfl) rfl, except_bind_ok]
      rfl
    rw [hstep, except_bind_ok]
    have hrec := fold_maps (sortStrs (keysOf d0)) ds
      ⟨[(sortStrs (keysOf d0)).map Cell.str, rowVals (sortStrs (keysOf d0)) d0],
        sortStrs (keysOf d0), .mapping⟩ rfl rfl hne hall
    dsimp only at hrec
    rw [hrec, except_bind_ok]
    dsimp only
    simp only [List.cons_append, List.nil_append]
  refine ⟨by decide, hmain, ?_⟩
  intro d0 ds hk0 hsame
  have hne := hdrne d0 hk0
  have hemp : (!(sortStrs (keysOf d0)).isEmpty) = true := by
    cases hs : sortStrs (keysOf d0) with
    | nil => exact absurd hs hne
    | cons a t => rfl
  have hlen : ∀ r ∈ (((sortStrs (keysOf d0)).map Cell.str) ::
      rowVals (sortStrs (keysOf d0)) d0 :: ds.map (rowVals (sortStrs (keysOf d0))) :
        List (List Cell)),
      r.length = ((sortStrs (keysOf d0)).map Cell.str).length := by
    intro r hr
    rcases List.mem_cons.mp hr with h1 | h1
    · rw [h1]
    rcases List.mem_cons.mp h1 with h2 | h2
    · rw [h2]
      simp [rowVals]
    · rw [List.mem_map] at h2
      obtain ⟨d, hd, rfl⟩ := h2
      simp [rowVals]
  have hrt := renderTable_ok _ _ (!(sortStrs (keysOf d0)).isEmpty) hlen
  obtain ⟨l0, ls, hls⟩ : ∃ l0 ls,
      tableLines (((sortStrs (keysOf d0)).map Cell.str) ::
        rowVals (sortStrs (keysOf d0)) d0 :: ds.map (rowVals (sortStrs (keysOf d0))))
        ((sortStrs (keysOf d0)).map Cell.str).length = l0 :: ls := by
    cases h0 : tableLines _ _ with
    | nil =>
      have h1 : (tableLines (((sortStrs (keysOf d0)).map Cell.str) ::
          rowVals (sortStrs (keysOf d0)) d0 :: ds.map (rowVals (sortStrs (keysOf d0))))
          ((sortStrs (keysOf d0)).map Cell.str).length).length ≠ 0 := by
        simp [tableLines, dispRows]
      rw [h0] at h1
      simp at h1
    | cons x t => exact ⟨x, t, rfl⟩
  refine ⟨l0, ls, ?_⟩
  rw [hmain d0 ds hk0 hsame, hrt, hls, hemp]
  simp [withDash]

theorem claim_C6_sorted_header_witness :
    pretty_table (Row.map [(('a' :: []), Cell.int 1), (('b' :: []), Cell.int 2)] ::
        ([[(('a' :: []), Cell.int 3), (('b' :: []), Cell.int 4)]].map Row.map)) none
      = renderTable
          ((sortStrs (keysOf [(('a' :: []), Cell.int 1), (('b' :: []), Cell.int 2)])).map
              Cell.str ::
            rowVals (sortStrs (keysOf [(('a' :: []), Cell.int 1), (('b' :: []), Cell.int 2)]))
              [(('a' :: []), Cell.int 1), (('b' :: []), Cell.int 2)] ::
            [[(('a' :: []), Cell.int 3), (('b' :: []), Cell.int 4)]].map
              (rowVals (sortStrs (keysOf [(('a' :: []), Cell.int 1),
                (('b' :: []), Cell.int 2)]))))
          (!(sortStrs (keysOf [(('a' :: []), Cell.int 1),
              (('b' :: []), Cell.int 2)])).isEmpty) :=
  claim_C6_sorted_header.2.1 [(('a' :: []), Cell.int 1), (('b' :: []), Cell.int 2)]
    [[(('a' :: []), Cell.int 3), (('b' :: []), Cell.int 4)]] (by decide) (by decide)

/-! ## Width lemmas for the rendering claim -/

lemma natMax_zero_left (x : Nat) : Nat.max 0 x = x := by
  simp only [Nat.max_def]
  split_ifs <;> omega

lemma natMax_assoc (a b c : Nat) :
    Nat.max (Nat.max a b) c = Nat.max a (Nat.max b c) := by
  simp only [Nat.max_def]
  split_ifs <;> omega

lemma le_natMax_left (a b : Nat) : a ≤ Nat.max a b := by
  simp only [Nat.max_def]
  split_ifs <;> omega

lemma le_natMax_right (a b : Nat) : b ≤ Nat.max a b := by
  simp only [Nat.max_def]
  split_ifs <;> omega

lemma foldl_max_eq (l : List Nat) : ∀ (a : Nat),
    l.foldl Nat.max a = Nat.max a (l.foldl Nat.max 0) := by
  induction l with
  | nil =>
    intro a
    simp only [List.foldl_nil, Nat.max_def]
    split_ifs <;> omega
  | cons x t ih =>
    intro a
    show t.foldl Nat.max (Nat.max a x) = Nat.max a (t.foldl Nat.max (Nat.max 0 x))
    rw [ih (Nat.max a x), ih (Nat.max 0 x), natMax_zero_left]
    exact natMax_assoc a x (t.foldl Nat.max 0)

lemma foldl_max_le (l : List Nat) (y : Nat) (hy : y ∈ l) :
    y ≤ l.foldl Nat.max 0 := by
  induction l with
  | nil => simp at hy
  | cons x t ih =>
    show y ≤ t.foldl Nat.max (Nat.max 0 x)
    rw [foldl_max_eq t (Nat.max 0 x), natMax_zero_left]
    rcases List.mem_cons.mp hy with h1 | h1
    · rw [h1]
      exact le_natMax_left _ _
    · exact le_trans (ih h1) (le_natMax_right _ _)

lemma foldl_max_mem (l : List Nat) (hne : l ≠ []) : l.foldl Nat.max 0 ∈ l := by
  induction l with
  | nil => exact absurd rfl hne
  | cons x t ih =>
    show t.foldl Nat.max (Nat.max 0 x) ∈ x :: t
    rw [foldl_max_eq t _, natMax_zero_left]
    cases t with
    | nil => simp
    | cons y ys =>
      rcases Nat.le_total ((y :: ys).foldl Nat.max 0) x with h1 | h1
      · have hm : Nat.max x ((y :: ys).foldl Nat.max 0) = x := by
          simp only [Nat.max_def]
          split_ifs <;> omega
        rw [hm]
        simp
      · have hm : Nat.max x ((y :: ys).foldl Nat.max 0)
            = (y :: ys).foldl Nat.max 0 := by
          simp only [Nat.max_def]
          split_ifs <;> omega
        rw [hm]
        exact List.mem_cons_of_mem x (ih (by simp))

lemma columnWidths_getD (rows : List (List PyStr)) (n i : Nat) (hi : i < n) :
    (columnWidths rows n).getD i 0
      = (rows.map (fun r => (r.getD i []).length)).foldl Nat.max 0 := by
  rw [columnWidths, List.getD_eq_getElem?_getD, List.getElem?_map,
    List.getElem?_range hi]
  rfl

/-- C7: the rendering pipeline — cells are stringified, each column width is
the maximum display length over the column (header row included, since the
header sits in the row list), rows are rendered left-justified and joined by
`" | "` then stripped, the dash line inserted below the header has exactly
the header line's length, and the output joins the lines with single
newlines (its total length is the sum of the line lengths plus one newline
between consecutive lines, so no trailing newline is appended); the worked
example renders exactly as claimed. -/
theorem claim_C7_rendering :
    pretty_table [Row.seq [Cell.str ('a' :: []), Cell.str ("hello").data,
        Cell.str ('c' :: []), Cell.int 1],
      Row.seq [Cell.str ("world").data, Cell.str ('b' :: []), Cell.str ('d' :: []),
        Cell.int 2]] none
      = .ok (("a     | hello | c | 1\nworld | b     | d | 2").data)
  ∧ (∀ (rows : List (List PyStr)) (n i : Nat), i < n →
      (∀ r ∈ rows, (r.getD i []).length ≤ (columnWidths rows n).getD i 0)
      ∧ (rows ≠ [] → ∃ r ∈ rows, (columnWidths rows n).getD i 0 = (r.getD i []).length))
  ∧ (∀ (r0 : List Cell) (rest : List (List Cell)) (hp : Bool),
      (∀ r ∈ (r0 :: rest : List (List Cell)), r.length = r0.length) →
      renderTable (r0 :: rest) hp
        = .ok (joinSep ['\n'] (withDash hp (tableLines (r0 :: rest) r0.length))))
  ∧ (∀ (l0 : PyStr) (ls : List PyStr),
      withDash true (l0 :: ls) = l0 :: List.replicate l0.length '-' :: ls)
  ∧ (∀ (widths : List Nat) (row : List PyStr),
      renderLine widths row = pyStrip (joinSep sepStr (List.zipWith pyLjust row widths)))
  ∧ (∀ (lines : List PyStr), lines ≠ [] →
      (joinSep ['\n'] lines).length = (lines.map List.length).sum + lines.length - 1) := by
  refine ⟨by decide, ?_, ?_, ?_, fun widths row => rfl, ?_⟩
  · intro rows n i hi
    constructor
    · intro r hr
      rw [columnWidths_getD rows n i hi]
      exact foldl_max_le _ _ (List.mem_map.mpr ⟨r, hr, rfl⟩)
    · intro hne
      rw [columnWidths_getD rows n i hi]
      have hm := foldl_max_mem (rows.map (fun r => (r.getD i []).length)) (by
        intro h0
        rw [List.map_eq_nil_iff] at h0
        exact hne h0)
      rw [List.mem_map] at hm
      obtain ⟨r, hr, hv⟩ := hm
      exact ⟨r, hr, hv.symm⟩
  · intro r0 rest hp hlen
    exact renderTable_ok r0 rest hp hlen
  · intro l0 ls
    simp [withDash]
  · intro lines hne
    exact joinSep_length '\n' lines hne

theorem claim_C7_rendering_witness :
    renderTable ([Cell.int 1] :: ([] : List (List Cell))) false
      = .ok (joinSep ['\n'] (withDash false
          (tableLines ([Cell.int 1] :: ([] : List (List Cell)))
            ([Cell.int 1] : List Cell).length)))
  ∧ ((joinSep ['\n'] [('a' :: []), ('b' :: 'c' :: [])]).length
      = ([('a' :: []), ('b' :: 'c' :: [])].map List.length).sum
        + [('a' :: []), ('b' :: 'c' :: [])].length - 1) :=
  ⟨claim_C7_rendering.2.2.1 [Cell.int 1] [] false (by decide),
   claim_C7_rendering.2.2.2.2.2 [('a' :: []), ('b' :: 'c' :: [])] (by decide)⟩
